import Mathlib

/-!
# River-crossing simulation (`proj2.c`): a shallow embedding

The development embeds `src/proj2.c` in Lean:

* `processArguments` and the diagnostic table of `main` as pure functions;
* `generate` as one iteration of the loop of a generator process;
* `joinPear` as a step function on program points, one step per C statement,
  over the shared variables and the seven POSIX semaphores of the program;
* the whole program as a transition system (`step`, `Reachable`) in which a
  scheduler picks the process that moves next.

Conventions of the embedding:

* C `int` values are `Int`; the only place where a conversion can wrap is the
  store of a `strtoul` result into an `int` field, which is `toInt32`.
* A semaphore is its value, a `Nat`: `sem_wait` is enabled when the value is
  positive and decrements it, `sem_post` increments it.
* Every C statement is one atomic step; the test on line 189 reads both pier
  counters in the same step, and each `sem_post` of a `SIGNAL` loop is a step
  of its own.
* `rand`, `usleep`, `srand` and `wait` do not touch the shared state and are
  not steps.  `cleanMemory` in an exiting child is taken to have no effect on
  the other processes (it unmaps the child's own view of the memory).
* Fields and counters called ghost are not in the program: they record which
  boarding group a process or a transcript line belongs to, how many quorums
  were formed and how many permits were posted to each queue, and no statement
  reads them.
-/

set_option linter.all false
set_option linter.unusedTactic false
set_option linter.unreachableTactic false
set_option linter.unnecessarySeqFocus false
set_option linter.unnecessarySimpa false
set_option maxRecDepth 100000

namespace Proj2

/-! ## Error codes (`enum errorCodes`, lines 47-54) -/

def OK : Int := 0
def ARG_COUNT_ERR : Int := 1
def ARG_UNEXPECTED_ERR : Int := 2
def ARG_RANGE_ERR : Int := 3
def FORK_ERR : Int := 4

/-! ## Arguments (`struct Arguments`, lines 27-35) -/

structure Arguments where
  numberOfPersons : Int
  hackersInterval : Int
  serfsInterval : Int
  cruiseTime : Int
  pierReturnTime : Int
  pierCapacity : Int
  deriving DecidableEq

/-- The global `Arguments arguments;` (line 59) is zero-initialised. -/
def Arguments.zero : Arguments := ⟨0, 0, 0, 0, 0, 0⟩

/-! ## `strtoul` (C library) and the store into an `int` -/

/-- Largest value of `unsigned long` (64 bits on the LP64 target). -/
def ULONG_MAX : Nat := 2 ^ 64 - 1

/-- The `isspace` characters of the C locale. -/
def isSpaceC (c : Char) : Bool :=
  c = ' ' || c = '\t' || c = '\n' || c = '\x0b' || c = '\x0c' || c = '\r'

/-- Value of a decimal digit character, `none` for any other character. -/
def digitVal (c : Char) : Option Nat :=
  if '0' ≤ c ∧ c ≤ '9' then some (c.toNat - '0'.toNat) else none

/-- Consume the longest run of decimal digits: returns how many digits were
read, the accumulated value (not yet clamped) and the unread rest. -/
def readDigits : List Char → Nat → Nat → Nat × Nat × List Char
  | [], n, acc => (n, acc, [])
  | c :: cs, n, acc =>
    match digitVal c with
    | some d => readDigits cs (n + 1) (acc * 10 + d)
    | none => (n, acc, c :: cs)

/-- Skip leading white space. -/
def skipSpaces : List Char → List Char
  | [] => []
  | c :: cs => if isSpaceC c then skipSpaces cs else c :: cs

/-- Split an optional sign off the front: returns whether it is a minus and
the rest. -/
def signAndDigits (s : List Char) : Bool × List Char :=
  match s with
  | '-' :: r => (true, r)
  | '+' :: r => (false, r)
  | r => (false, r)

/-- The C library function `strtoul(nptr, &end, 10)` (ISO C 7.22.1.4), which
is not part of the repository: optional white space, optional sign, decimal
digits.  Returns the converted value and the string `end` points to.  With no
digits the value is 0 and `end` is `nptr`; a value out of range gives
`ULONG_MAX`; a leading minus negates in `unsigned long`. -/
def strtoul (nptr : List Char) : Nat × List Char :=
  let sd := signAndDigits (skipSpaces nptr)
  match readDigits sd.2 0 0 with
  | (0, _, _) => (0, nptr)
  | (_, v, rest) =>
    if v > ULONG_MAX then (ULONG_MAX, rest)
    else if sd.1 then ((2 ^ 64 - v) % 2 ^ 64, rest)
    else (v, rest)

/-- Conversion of an `unsigned long` to `int` on store (modulo `2^32`, two's
complement). -/
def toInt32 (v : Nat) : Int :=
  let m : Nat := v % 2 ^ 32
  if m < 2 ^ 31 then (m : Int) else (m : Int) - 2 ^ 32

/-- C truth value of `*end`: the character `end` points to is not the
terminating NUL. -/
def endNonNull (rest : List Char) : Bool := !rest.isEmpty

/-! ## `processArguments` (lines 104-151) -/

/-- Embedding of `processArguments`.  `argv` includes the program name, so
`argc = argv.length`.  Returns the error code and the `arguments` structure as
far as it was filled in. -/
def processArguments (argv : List String) (arguments : Arguments) : Int × Arguments :=
  match argv with
  | [_, a1, a2, a3, a4, a5, a6] =>
    let (v1, e1) := strtoul a1.toList
    let arguments := { arguments with numberOfPersons := toInt32 v1 }
    if endNonNull e1 then (ARG_UNEXPECTED_ERR, arguments)
    else if arguments.numberOfPersons < 2 ∨ arguments.numberOfPersons % 2 ≠ 0 then
      (ARG_RANGE_ERR, arguments)
    else
    let (v2, e2) := strtoul a2.toList
    let arguments := { arguments with hackersInterval := toInt32 v2 }
    if endNonNull e2 then (ARG_UNEXPECTED_ERR, arguments)
    else if arguments.hackersInterval < 0 ∨ arguments.hackersInterval > 2000 then
      (ARG_RANGE_ERR, arguments)
    else
    let (v3, e3) := strtoul a3.toList
    let arguments := { arguments with serfsInterval := toInt32 v3 }
    if endNonNull e3 then (ARG_UNEXPECTED_ERR, arguments)
    else if arguments.serfsInterval < 0 ∨ arguments.serfsInterval > 2000 then
      (ARG_RANGE_ERR, arguments)
    else
    let (v4, e4) := strtoul a4.toList
    let arguments := { arguments with cruiseTime := toInt32 v4 }
    if endNonNull e4 then (ARG_UNEXPECTED_ERR, arguments)
    else if arguments.cruiseTime < 0 ∨ arguments.cruiseTime > 2000 then
      (ARG_RANGE_ERR, arguments)
    else
    let (v5, e5) := strtoul a5.toList
    let arguments := { arguments with pierReturnTime := toInt32 v5 }
    if endNonNull e5 then (ARG_UNEXPECTED_ERR, arguments)
    else if arguments.pierReturnTime < 20 ∨ arguments.pierReturnTime > 2000 then
      (ARG_RANGE_ERR, arguments)
    else
    let (v6, e6) := strtoul a6.toList
    let arguments := { arguments with pierCapacity := toInt32 v6 }
    if endNonNull e6 then (ARG_UNEXPECTED_ERR, arguments)
    else if arguments.pierCapacity < 5 then (ARG_RANGE_ERR, arguments)
    else (0, arguments)
  | _ => (ARG_COUNT_ERR, arguments)

/-- The range conditions under which `processArguments` returns 0. -/
def Validated (a : Arguments) : Prop :=
  2 ≤ a.numberOfPersons ∧ a.numberOfPersons % 2 = 0 ∧
  0 ≤ a.hackersInterval ∧ a.hackersInterval ≤ 2000 ∧
  0 ≤ a.serfsInterval ∧ a.serfsInterval ≤ 2000 ∧
  0 ≤ a.cruiseTime ∧ a.cruiseTime ≤ 2000 ∧
  20 ≤ a.pierReturnTime ∧ a.pierReturnTime ≤ 2000 ∧
  5 ≤ a.pierCapacity

instance (a : Arguments) : Decidable (Validated a) := by
  unfold Validated; infer_instance

/-- The character is a decimal digit. -/
def isDigitC (c : Char) : Bool := (digitVal c).isSome

/-- The part of an argument after the optional white space and sign. -/
def digitsPart (l : List Char) : List Char :=
  (signAndDigits (skipSpaces l)).2

/-- An argument is the decimal text of an integer, in the form `strtoul`
expects: optional white space, an optional sign, at least one decimal digit
and nothing after the digits. -/
def isDecimalText (s : String) : Bool :=
  !(digitsPart s.toList).isEmpty && (digitsPart s.toList).all isDigitC

/-! ## The diagnostic table of `main` (lines 354-361, 399-423) -/

/-- The table `errorMessages` of `main` (line 354). -/
def errorMessages : List String :=
  ["Too many / Not enough arguments", "Unexpected argument",
   "Argument out of allowed range", "Fork error"]

/-- Reading `errorMessages[i]` for a C `int` index: `none` when the index is
outside the array. -/
def messageAt (i : Int) : Option String :=
  if 0 ≤ i then errorMessages.get? i.toNat else none

/-- The places where `main` reports an error, with the code reported there. -/
inductive ErrorSite where
  /-- Line 360: `processArguments` returned `returnCode ≠ 0`. -/
  | argument (returnCode : Int)
  /-- Line 399: `fork()` of the hacker generator failed. -/
  | hackerGeneratorFork
  /-- Line 406: `generate` for hackers returned `returnCode ≠ OK`. -/
  | hackerGenerate (returnCode : Int)
  /-- Line 413: `fork()` of the serf generator failed. -/
  | serfGeneratorFork
  /-- Line 421: `generate` for serfs returned `returnCode ≠ OK`. -/
  | serfGenerate (returnCode : Int)
  deriving DecidableEq

/-- The error code reported at a site. -/
def ErrorSite.code : ErrorSite → Int
  | .argument rc => rc
  | .hackerGeneratorFork => FORK_ERR
  | .hackerGenerate rc => rc
  | .serfGeneratorFork => FORK_ERR
  | .serfGenerate rc => rc

/-- The index `main` passes to `errorMessages` at each site: `returnCode - 1`
on line 361, `FORK_ERR` on lines 400 and 414, `returnCode` on lines 407 and
422. -/
def mainErrorIndex : ErrorSite → Int
  | .argument rc => rc - 1
  | .hackerGeneratorFork => FORK_ERR
  | .hackerGenerate rc => rc
  | .serfGeneratorFork => FORK_ERR
  | .serfGenerate rc => rc


/-! ## Shared state, processes and the transcript -/

/-- The two populations; the constructor names are the `name` strings passed
to `generate` and `joinPear`. -/
inductive PersonClass where
  | HACK
  | SERF
  deriving DecidableEq

/-- The class that is not `c`. -/
def PersonClass.other : PersonClass → PersonClass
  | .HACK => .SERF
  | .SERF => .HACK

/-- The `action` strings passed to `printAction`. -/
inductive Action where
  | starts
  | waits
  | leavesQueue
  | isBack
  | boards
  | captainExits
  | memberExits
  deriving DecidableEq

/-- One line of `proj2.out`.  `group` is a ghost field (not printed): the
boarding group of the emitting process at that moment, 0 for none. -/
structure Record where
  seq : Int
  name : PersonClass
  counter : Int
  action : Action
  pier : Option (Int × Int)
  group : Nat
  deriving DecidableEq

/-- The shared memory of the program: `SharedVariables` (lines 38-45), the
seven semaphores (lines 65-72) and the output file.  The last three fields
are ghost counters, read by no transition: `groups` counts the quorums formed
so far, `hackerPosted` and `serfPosted` count the `sem_post` calls executed on
`hackerQueue` and `serfQueue`. -/
structure Shared where
  actionCounter : Int
  hackerPierCount : Int
  serfPierCount : Int
  exitCounter : Int
  onBoard : Int
  fileSem : Nat
  hackerQueue : Nat
  serfQueue : Nat
  sailingDone : Nat
  captainLast : Nat
  mutex : Nat
  boardingDone : Nat
  out : List Record
  groups : Nat
  hackerPosted : Nat
  serfPosted : Nat
  deriving DecidableEq

/-- Program points of an arrival, named by the source line of the statement
that is executed next.  The loops of `SIGNAL` carry their index `i`. -/
inductive Loc where
  | L328 | L329 | L330
  | L186 | L189 | L192 | L193 | L199 | L200 | L201
  | L210 | L212 | L214 | L215 | L216 | L217
  | L221 | L224 (i : Nat) | L225
  | L230 | L233 (i : Nat) | L234 (i : Nat) | L235 | L236
  | L242 | L246
  | L250 | L251 | L252 | L255 | L265 (i : Nat) | L268
  | L270 | L271 | L272 | L273 | L274 | L276
  | L282 | L283 | L285 | L287 | L289 | L292
  | L294 | L295 | L296 | L298 | L299 | L300
  | done

/-- Numbering of the program points (with the loop index), used to decide
equality of program points. -/
def Loc.code : Loc → Nat × Nat
  | .L328 => (0, 0)
  | .L329 => (1, 0)
  | .L330 => (2, 0)
  | .L186 => (3, 0)
  | .L189 => (4, 0)
  | .L192 => (5, 0)
  | .L193 => (6, 0)
  | .L199 => (7, 0)
  | .L200 => (8, 0)
  | .L201 => (9, 0)
  | .L210 => (10, 0)
  | .L212 => (11, 0)
  | .L214 => (12, 0)
  | .L215 => (13, 0)
  | .L216 => (14, 0)
  | .L217 => (15, 0)
  | .L221 => (16, 0)
  | .L225 => (17, 0)
  | .L230 => (18, 0)
  | .L235 => (19, 0)
  | .L236 => (20, 0)
  | .L242 => (21, 0)
  | .L246 => (22, 0)
  | .L250 => (23, 0)
  | .L251 => (24, 0)
  | .L252 => (25, 0)
  | .L255 => (26, 0)
  | .L268 => (27, 0)
  | .L270 => (28, 0)
  | .L271 => (29, 0)
  | .L272 => (30, 0)
  | .L273 => (31, 0)
  | .L274 => (32, 0)
  | .L276 => (33, 0)
  | .L282 => (34, 0)
  | .L283 => (35, 0)
  | .L285 => (36, 0)
  | .L287 => (37, 0)
  | .L289 => (38, 0)
  | .L292 => (39, 0)
  | .L294 => (40, 0)
  | .L295 => (41, 0)
  | .L296 => (42, 0)
  | .L298 => (43, 0)
  | .L299 => (44, 0)
  | .L300 => (45, 0)
  | .done => (46, 0)
  | .L224 i => (47, i)
  | .L233 i => (48, i)
  | .L234 i => (49, i)
  | .L265 i => (50, i)

/-- Inverse of `Loc.code`. -/
def Loc.ofCode : Nat → Nat → Loc
  | 0, _ => .L328
  | 1, _ => .L329
  | 2, _ => .L330
  | 3, _ => .L186
  | 4, _ => .L189
  | 5, _ => .L192
  | 6, _ => .L193
  | 7, _ => .L199
  | 8, _ => .L200
  | 9, _ => .L201
  | 10, _ => .L210
  | 11, _ => .L212
  | 12, _ => .L214
  | 13, _ => .L215
  | 14, _ => .L216
  | 15, _ => .L217
  | 16, _ => .L221
  | 17, _ => .L225
  | 18, _ => .L230
  | 19, _ => .L235
  | 20, _ => .L236
  | 21, _ => .L242
  | 22, _ => .L246
  | 23, _ => .L250
  | 24, _ => .L251
  | 25, _ => .L252
  | 26, _ => .L255
  | 27, _ => .L268
  | 28, _ => .L270
  | 29, _ => .L271
  | 30, _ => .L272
  | 31, _ => .L273
  | 32, _ => .L274
  | 33, _ => .L276
  | 34, _ => .L282
  | 35, _ => .L283
  | 36, _ => .L285
  | 37, _ => .L287
  | 38, _ => .L289
  | 39, _ => .L292
  | 40, _ => .L294
  | 41, _ => .L295
  | 42, _ => .L296
  | 43, _ => .L298
  | 44, _ => .L299
  | 45, _ => .L300
  | 46, _ => .done
  | 47, i => .L224 i
  | 48, i => .L233 i
  | 49, i => .L234 i
  | 50, i => .L265 i
  | _, _ => .done

instance : DecidableEq Loc := fun x y =>
  decidable_of_iff (x.code = y.code)
    ⟨fun h => by
      have key : ∀ l : Loc, Loc.ofCode l.code.1 l.code.2 = l := fun l => by cases l <;> rfl
      rw [← key x, ← key y, h],
     fun h => by rw [h]⟩

/-- An arrival: a child process of a generator.  `name` and `counter` are the
arguments of `joinPear`, `isCaptain` its local variable, `loc` the program
point.  `group` is a ghost field: the boarding group the process belongs to
(0 while it has none). -/
structure Proc where
  name : PersonClass
  counter : Int
  loc : Loc
  isCaptain : Bool
  group : Nat
  deriving DecidableEq

/-- The value of `*pierCounter` for class `c`. -/
def Shared.pierCounter (sh : Shared) : PersonClass → Int
  | .HACK => sh.hackerPierCount
  | .SERF => sh.serfPierCount

/-- Assignment to `*pierCounter` for class `c`. -/
def Shared.setPierCounter (sh : Shared) (c : PersonClass) (v : Int) : Shared :=
  match c with
  | .HACK => { sh with hackerPierCount := v }
  | .SERF => { sh with serfPierCount := v }

/-- The value of the semaphore `queue` of class `c` (lines 175-184). -/
def Shared.queue (sh : Shared) : PersonClass → Nat
  | .HACK => sh.hackerQueue
  | .SERF => sh.serfQueue

/-- Store a new value in the semaphore `queue` of class `c`. -/
def Shared.setQueue (sh : Shared) (c : PersonClass) (v : Nat) : Shared :=
  match c with
  | .HACK => { sh with hackerQueue := v }
  | .SERF => { sh with serfQueue := v }

/-- Ghost update for one `sem_post` on the queue of class `c`: count it. -/
def Shared.notePost (sh : Shared) (c : PersonClass) : Shared :=
  match c with
  | .HACK => { sh with hackerPosted := sh.hackerPosted + 1 }
  | .SERF => { sh with serfPosted := sh.serfPosted + 1 }

/-- Embedding of `printAction` (lines 154-166): append one record carrying
`actionCounter`; `starts` and `is back` omit the pier counters; then
`actionCounter++`. -/
def printAction (sh : Shared) (p : Proc) (action : Action) : Shared :=
  let pier :=
    if action = .starts ∨ action = .isBack then none
    else some (sh.hackerPierCount, sh.serfPierCount)
  { sh with
    out := sh.out ++ [⟨sh.actionCounter, p.name, p.counter, action, pier, p.group⟩]
    actionCounter := sh.actionCounter + 1 }

/-- Move a process to another program point. -/
def Proc.goto (p : Proc) (l : Loc) : Proc := { p with loc := l }

/-- Successor of a `SIGNAL(sem, n)` loop position: stay in the loop while
`i + 1 < n`, otherwise continue after it. -/
def loopNext (i n : Nat) (again : Nat → Loc) (after : Loc) : Loc :=
  if i + 1 < n then again (i + 1) else after

/-- One statement of `joinPear` (lines 169-303) for the process `p`. `none`
means the process cannot move: it is blocked in `sem_wait` or is not inside
`joinPear`. Statements that touch only local state (the choice of `queue`,
`isCaptain = true`, the `if (isCaptain)` test, `rand`, `usleep`) are executed
together with the neighbouring statement; the recursive call on line 204 is
the jump back to line 186 with a fresh `isCaptain`; the return from
`joinPear` leads to `cleanMemory(); exit(0)` in `generate`, the point
`done`. Ghost updates: a successful quorum test (line 221 or 230) opens
group `groups + 1` and tags the caller with it; a crew member is tagged with
the current group when it takes its permit (line 246); every `sem_post` of a
`SIGNAL(queue, n)` or `SIGNAL(otherQueue, n)` loop is counted in `posted`. -/
def joinPear (a : Arguments) (sh : Shared) (p : Proc) : Option (Shared × Proc) :=
  match p.loc with
  | .L186 => if 0 < sh.fileSem then some ({ sh with fileSem := sh.fileSem - 1 }, p.goto .L189) else none
  | .L189 =>
    if sh.hackerPierCount + sh.serfPierCount = a.pierCapacity then some (sh, p.goto .L192)
    else some (sh, p.goto .L210)
  | .L192 => some (printAction sh p .leavesQueue, p.goto .L193)
  | .L193 => some ({ sh with fileSem := sh.fileSem + 1 }, p.goto .L199)
  | .L199 => if 0 < sh.fileSem then some ({ sh with fileSem := sh.fileSem - 1 }, p.goto .L200) else none
  | .L200 => some (printAction sh p .isBack, p.goto .L201)
  | .L201 => some ({ sh with fileSem := sh.fileSem + 1 }, { p with loc := .L186, isCaptain := false })
  | .L210 => some ({ sh with fileSem := sh.fileSem + 1 }, p.goto .L212)
  | .L212 => if 0 < sh.mutex then some ({ sh with mutex := sh.mutex - 1 }, p.goto .L214) else none
  | .L214 => if 0 < sh.fileSem then some ({ sh with fileSem := sh.fileSem - 1 }, p.goto .L215) else none
  | .L215 => some (sh.setPierCounter p.name (sh.pierCounter p.name + 1), p.goto .L216)
  | .L216 => some (printAction sh p .waits, p.goto .L217)
  | .L217 => some ({ sh with fileSem := sh.fileSem + 1 }, p.goto .L221)
  | .L221 =>
    if sh.pierCounter p.name = 4 then
      some ({ sh with groups := sh.groups + 1 }, { p with loc := .L224 0, group := sh.groups + 1 })
    else some (sh, p.goto .L230)
  | .L224 i =>
    some ((sh.setQueue p.name (sh.queue p.name + 1)).notePost p.name,
          p.goto (loopNext i 4 .L224 .L225))
  | .L225 => some (sh.setPierCounter p.name 0, { p with loc := .L246, isCaptain := true })
  | .L230 =>
    if sh.pierCounter p.name = 2 ∧ sh.pierCounter p.name.other ≥ 2 then
      some ({ sh with groups := sh.groups + 1 }, { p with loc := .L233 0, group := sh.groups + 1 })
    else some (sh, p.goto .L242)
  | .L233 i =>
    some ((sh.setQueue p.name (sh.queue p.name + 1)).notePost p.name,
          p.goto (loopNext i 2 .L233 (.L234 0)))
  | .L234 i =>
    some ((sh.setQueue p.name.other (sh.queue p.name.other + 1)).notePost p.name.other,
          p.goto (loopNext i 2 .L234 .L235))
  | .L235 => some (sh.setPierCounter p.name 0, p.goto .L236)
  | .L236 =>
    some (sh.setPierCounter p.name.other (sh.pierCounter p.name.other - 2),
          { p with loc := .L246, isCaptain := true })
  | .L242 => some ({ sh with mutex := sh.mutex + 1 }, p.goto .L246)
  | .L246 =>
    if 0 < sh.queue p.name then
      if p.isCaptain then some (sh.setQueue p.name (sh.queue p.name - 1), p.goto .L250)
      else some (sh.setQueue p.name (sh.queue p.name - 1), { p with loc := .L282, group := sh.groups })
    else none
  -- captain
  | .L250 => if 0 < sh.fileSem then some ({ sh with fileSem := sh.fileSem - 1 }, p.goto .L251) else none
  | .L251 => some (printAction sh p .boards, p.goto .L252)
  | .L252 => some ({ sh with fileSem := sh.fileSem + 1 }, p.goto .L255)
  | .L255 =>
    if 0 < sh.boardingDone then some ({ sh with boardingDone := sh.boardingDone - 1 }, p.goto (.L265 0))
    else none
  | .L265 i => some ({ sh with sailingDone := sh.sailingDone + 1 }, p.goto (loopNext i 3 .L265 .L268))
  | .L268 =>
    if 0 < sh.captainLast then some ({ sh with captainLast := sh.captainLast - 1 }, p.goto .L270)
    else none
  | .L270 => if 0 < sh.fileSem then some ({ sh with fileSem := sh.fileSem - 1 }, p.goto .L271) else none
  | .L271 => some (printAction sh p .captainExits, p.goto .L272)
  | .L272 => some ({ sh with exitCounter := 0 }, p.goto .L273)
  | .L273 => some ({ sh with onBoard := 0 }, p.goto .L274)
  | .L274 => some ({ sh with fileSem := sh.fileSem + 1 }, p.goto .L276)
  | .L276 => some ({ sh with mutex := sh.mutex + 1 }, p.goto .done)
  -- crew
  | .L282 => if 0 < sh.fileSem then some ({ sh with fileSem := sh.fileSem - 1 }, p.goto .L283) else none
  | .L283 => some ({ sh with onBoard := sh.onBoard + 1 }, p.goto .L285)
  | .L285 => if sh.onBoard = 3 then some (sh, p.goto .L287) else some (sh, p.goto .L289)
  | .L287 => some ({ sh with boardingDone := sh.boardingDone + 1 }, p.goto .L289)
  | .L289 => some ({ sh with fileSem := sh.fileSem + 1 }, p.goto .L292)
  | .L292 =>
    if 0 < sh.sailingDone then some ({ sh with sailingDone := sh.sailingDone - 1 }, p.goto .L294)
    else none
  | .L294 => if 0 < sh.fileSem then some ({ sh with fileSem := sh.fileSem - 1 }, p.goto .L295) else none
  | .L295 => some (printAction sh p .memberExits, p.goto .L296)
  | .L296 => some ({ sh with exitCounter := sh.exitCounter + 1 }, p.goto .L298)
  | .L298 => if sh.exitCounter = 3 then some (sh, p.goto .L299) else some (sh, p.goto .L300)
  | .L299 => some ({ sh with captainLast := sh.captainLast + 1 }, p.goto .L300)
  | .L300 => some ({ sh with fileSem := sh.fileSem + 1 }, p.goto .done)
  | _ => none

/-- One statement of an arrival: the child branch of `generate` (lines
328-330), then `joinPear`. -/
def procStep (a : Arguments) (sh : Shared) (p : Proc) : Option (Shared × Proc) :=
  match p.loc with
  | .L328 => if 0 < sh.fileSem then some ({ sh with fileSem := sh.fileSem - 1 }, p.goto .L329) else none
  | .L329 => some (printAction sh p .starts, p.goto .L330)
  | .L330 => some ({ sh with fileSem := sh.fileSem + 1 }, p.goto .L186)
  | _ => joinPear a sh p

/-! ## Generators and the whole system -/

/-- Local state of a generator process running `generate` (lines 306-350):
the loop variable `i`, the value of `*counter`, and whether a `fork` failed
(the function returned `FORK_ERR`). -/
structure Gen where
  i : Int
  counter : Int
  failed : Bool
  deriving DecidableEq

/-- The generator of class `c` may run another iteration of its loop (line
311: `i < arguments.numberOfPersons`). -/
def Gen.canFork (a : Arguments) (g : Gen) : Bool :=
  !g.failed && decide (g.i < a.numberOfPersons)

/-- A state of the whole program after `main` has set up the shared memory. -/
structure State where
  sh : Shared
  procs : List Proc
  hackerGen : Gen
  serfGen : Gen
  deriving DecidableEq

/-- The generator of class `c`. -/
def State.gen (s : State) : PersonClass → Gen
  | .HACK => s.hackerGen
  | .SERF => s.serfGen

/-- Replace the generator of class `c`. -/
def State.setGen (s : State) (c : PersonClass) (g : Gen) : State :=
  match c with
  | .HACK => { s with hackerGen := g }
  | .SERF => { s with serfGen := g }

/-- Initial state: the assignments and `sem_init` calls of `main` (lines
364-396).  `onBoard` is not assigned; the anonymous mapping is zero-filled. -/
def initState : State :=
  { sh :=
      { actionCounter := 1, hackerPierCount := 0, serfPierCount := 0, exitCounter := 0,
        onBoard := 0, fileSem := 1, hackerQueue := 0, serfQueue := 0, sailingDone := 0,
        captainLast := 0, mutex := 1, boardingDone := 1, out := [], groups := 0,
        hackerPosted := 0, serfPosted := 0 }
    procs := []
    hackerGen := ⟨0, 0, false⟩
    serfGen := ⟨0, 0, false⟩ }

/-- What the scheduler can pick next. -/
inductive Event where
  /-- The arrival at index `i` of the process list executes one statement. -/
  | proc (i : Nat)
  /-- The generator of class `c` runs one loop iteration with a successful
  `fork` (lines 311-339): the child starts at line 328 with `*counter`
  already incremented. -/
  | fork (c : PersonClass)
  /-- The `fork` of the generator of class `c` fails: `generate` returns
  `FORK_ERR` (line 321). -/
  | forkFails (c : PersonClass)
  deriving DecidableEq

/-- One iteration of the loop of `generate` (lines 311-339) in the generator
process of class `name`; `forkOk` tells whether `fork` succeeds. Returns the
new local state of the generator and the child, which starts at line 328 with
its own copy of `*counter`, already incremented. `none` when the loop is over.
The delay (`rand`, `usleep`) has no effect on the state. -/
def generate (a : Arguments) (g : Gen) (name : PersonClass) (forkOk : Bool) :
    Option (Gen × Option Proc) :=
  if g.canFork a then
    if forkOk then
      some ({ g with i := g.i + 1, counter := g.counter + 1 },
            some (Proc.mk name (g.counter + 1) .L328 false 0))
    else some ({ g with failed := true }, none)
  else none

/-- One step of the system. -/
def step (a : Arguments) (s : State) : Event → Option State
  | .proc i =>
    match s.procs.get? i with
    | none => none
    | some p =>
      match procStep a s.sh p with
      | none => none
      | some (sh, q) => some { s with sh := sh, procs := s.procs.set i q }
  | .fork c =>
    match generate a (s.gen c) c true with
    | some (g, some q) => some (({ s with procs := s.procs ++ [q] }).setGen c g)
    | _ => none
  | .forkFails c =>
    match generate a (s.gen c) c false with
    | some (g, none) => some (s.setGen c g)
    | _ => none

/-- States reachable from `initState`. -/
inductive Reachable (a : Arguments) : State → Prop where
  | init : Reachable a initState
  | step {s t : State} (e : Event) : Reachable a s → step a s e = some t → Reachable a t


/-- Run a schedule, skipping the events that are not enabled. -/
def runD (a : Arguments) (es : List Event) (s : State) : State :=
  es.foldl (fun st e => (step a st e).getD st) s

/-- Schedule notation: `(i, k)` lets the arrival at index `i` execute `k`
statements. -/
def sched (l : List (Nat × Nat)) : List Event :=
  l.bind (fun x => List.replicate x.2 (Event.proc x.1))

/-- Both generators fork `n` children before any child runs: hackers get the
indices `0 .. n-1`, serfs `n .. 2n-1`. -/
def forks (n : Nat) : List Event :=
  List.replicate n (Event.fork .HACK) ++ List.replicate n (Event.fork .SERF)

/-- Configuration `P 0 0 0 20 C`: `P` persons per generator loop, no delays,
pier capacity `C`. -/
def config (P C : Int) : Arguments := ⟨P, 0, 0, 0, 20, C⟩

/-- A complete run of `./proj2 2 0 0 0 20 5`: the four arrivals start, wait
and form one mixed group whose captain is the second serf. -/
def runTwo : List Event :=
  forks 2 ++ sched [(0, 14), (1, 14), (2, 14), (3, 27), (0, 11), (1, 11), (2, 13), (3, 7)]

/-- The run `runTwo` cut right after the captain has passed
`sem_wait(boardingDone)` (line 255), before any crew member has run on. -/
def runTwoAtCruise : List Event :=
  forks 2 ++ sched [(0, 14), (1, 14), (2, 14), (3, 24)]

/-- The run `runTwo` cut right before the captain logs `captain exits`. -/
def runTwoAtExit : List Event :=
  forks 2 ++ sched [(0, 14), (1, 14), (2, 14), (3, 27), (0, 11), (1, 11), (2, 13), (3, 2)]

/-- Start of a run of `./proj2 4 0 0 0 20 5`: all eight arrivals are forked
and log `starts` before any of them enters `joinPear`. -/
def runFourStart : List Event :=
  forks 4 ++ sched [(0, 3), (1, 3), (2, 3), (3, 3), (4, 3), (5, 3), (6, 3), (7, 3)]

/-- A complete run of `./proj2 4 0 0 0 20 5` that begins with `runFourStart`:
the four hackers sail first, then the four serfs. -/
def runFour : List Event :=
  runFourStart ++ sched [(0, 11), (1, 11), (2, 11), (3, 22), (4, 3), (5, 3), (6, 3), (7, 3),
    (0, 11), (1, 11), (2, 13), (3, 7), (4, 8), (5, 8), (6, 8), (7, 19), (4, 11), (5, 11),
    (6, 13), (7, 7)]

/-- A run of `./proj2 4 0 0 0 20 5` in which three hackers and one serf wait,
a second serf has just incremented `serfPierCount` to 2 (total 5), and the
fourth hacker then finds the pier full and logs `leaves queue`. -/
def runRetry : List Event :=
  forks 4 ++ sched [(0, 14), (1, 14), (2, 14), (4, 14), (5, 11), (3, 6)]

/-- The run `runRetry` cut before the fourth hacker tests the pier: it holds
`fileSem` and stands at line 189, with the counters at 3 and 2. -/
def runRetryAtTest : List Event :=
  forks 4 ++ sched [(0, 14), (1, 14), (2, 14), (4, 14), (5, 11), (3, 4)]

/-- The run `runRetry` continued until the fourth hacker has logged `is back`
and stands at the entrance of `joinPear` again (line 186). -/
def runRetryBack : List Event :=
  runRetry ++ sched [(3, 4)]

/-- The pier-full branch run by one process without interruption: execute its
statements from the test on line 189 until it stands at the entrance of
`joinPear` again (line 186, reached by the recursive call on line 204). -/
def retryBlock (a : Arguments) : Nat → Shared → Proc → Shared × Proc
  | 0, sh, p => (sh, p)
  | n + 1, sh, p =>
    if p.loc = .L186 then (sh, p)
    else
      match procStep a sh p with
      | none => (sh, p)
      | some (sh', p') => retryBlock a n sh' p'

/-- The quorum test run by one process without interruption: execute its
statements from line 221 until it reaches `sem_wait(queue)` on line 246. The
pier counters cannot be changed by another process meanwhile, because the
process holds `mutex`. -/
def quorumBlock (a : Arguments) : Nat → Shared → Proc → Shared × Proc
  | 0, sh, p => (sh, p)
  | n + 1, sh, p =>
    if p.loc = .L246 then (sh, p)
    else
      match procStep a sh p with
      | none => (sh, p)
      | some (sh', p') => quorumBlock a n sh' p'

/-! ## Invariants of the transition system -/

/-- Sum of a weight over the processes. -/
def tot (f : Proc → Nat) (l : List Proc) : Nat := (l.map f).sum

/-- Weight 1 for a process between a `sem_wait(fileSem)` it has passed and
the matching `sem_post(fileSem)`. -/
def holdsFile (p : Proc) : Nat :=
  match p.loc with
  | .L329 | .L330 | .L189 | .L192 | .L193 | .L200 | .L201 | .L210
  | .L215 | .L216 | .L217 | .L251 | .L252 | .L271 | .L272 | .L273 | .L274
  | .L283 | .L285 | .L287 | .L289 | .L295 | .L296 | .L298 | .L299 | .L300 => 1
  | _ => 0

/-- Weight 1 for a process between `sem_wait(mutex)` (line 212) and the
`sem_post(mutex)` it will execute (line 242, or line 276 for a captain). -/
def holdsMutex (p : Proc) : Nat :=
  match p.loc with
  | .L214 | .L215 | .L216 | .L217 | .L221 | .L224 _ | .L225 | .L230
  | .L233 _ | .L234 _ | .L235 | .L236 | .L242
  | .L250 | .L251 | .L252 | .L255 | .L265 _ | .L268
  | .L270 | .L271 | .L272 | .L273 | .L274 | .L276 => 1
  | .L246 => if p.isCaptain then 1 else 0
  | _ => 0

/-- The local flag `isCaptain` agrees with the branch the process is in. -/
def capOk (p : Proc) : Prop :=
  match p.loc with
  | .L250 | .L251 | .L252 | .L255 | .L265 _ | .L268
  | .L270 | .L271 | .L272 | .L273 | .L274 | .L276 => p.isCaptain = true
  | .L246 | .done => True
  | _ => p.isCaptain = false

/-- Mutual exclusion: `fileSem` and `mutex` are binary and account for the
processes inside the regions they guard. -/
structure Inv1 (sh : Shared) (l : List Proc) : Prop where
  file : sh.fileSem + tot holdsFile l = 1
  mutex : sh.mutex + tot holdsMutex l = 1
  cap : ∀ p ∈ l, capOk p

/-- Bounds of the `SIGNAL` loop indices. -/
def idxOk (p : Proc) : Prop :=
  match p.loc with
  | .L224 i => i < 4
  | .L233 i => i < 2
  | .L234 i => i < 2
  | .L265 i => i < 3
  | _ => True

/-- Crew member that holds a boarding permit and has not yet passed
`sem_wait(sailingDone)` (lines 282-292). -/
def crewA (p : Proc) : Nat :=
  match p.loc with
  | .L282 | .L283 | .L285 | .L287 | .L289 | .L292 => 1
  | _ => 0

/-- Crew member past `sem_wait(sailingDone)` that has not yet executed
`exitCounter++` (lines 294-296). -/
def crewC (p : Proc) : Nat :=
  match p.loc with
  | .L294 | .L295 | .L296 => 1
  | _ => 0

/-- Crew member that has logged `member exits` and not yet executed
`exitCounter++` (line 296). -/
def crewLogged (p : Proc) : Nat :=
  match p.loc with
  | .L296 => 1
  | _ => 0

/-- Crew member about to test `exitCounter == 3` (line 298). -/
def crewD (p : Proc) : Nat :=
  match p.loc with
  | .L298 => 1
  | _ => 0

/-- Crew member about to execute `sem_post(captainLast)` (line 299). -/
def crewPoster (p : Proc) : Nat :=
  match p.loc with
  | .L299 => 1
  | _ => 0

/-- Crew member between `exitCounter++` and its exit (lines 298-300). -/
def crewX (p : Proc) : Nat :=
  match p.loc with
  | .L298 | .L299 | .L300 => 1
  | _ => 0

/-- Permits a captain has posted so far, minus the one it has consumed
itself, until it resets `exitCounter`. -/
def wq (p : Proc) : Nat :=
  match p.loc with
  | .L224 i => min i 4
  | .L225 => 4
  | .L233 i => min i 2
  | .L234 i => 2 + min i 2
  | .L235 | .L236 => 4
  | .L246 => if p.isCaptain then 4 else 0
  | .L250 | .L251 | .L252 | .L255 | .L265 _ | .L268 | .L270 | .L271 | .L272 => 3
  | _ => 0

/-- Posts to `sailingDone` a captain has made so far, until it resets
`exitCounter`. -/
def ws (p : Proc) : Nat :=
  match p.loc with
  | .L265 i => min i 3
  | .L268 | .L270 | .L271 | .L272 => 3
  | _ => 0

/-- Captain that has passed `sem_wait(captainLast)` and not yet reset
`exitCounter` (lines 270-272). -/
def wt (p : Proc) : Nat :=
  match p.loc with
  | .L270 | .L271 | .L272 => 1
  | _ => 0

/-- Captain between its first post to `sailingDone` and the moment it takes
`fileSem` to log its exit (lines 265-270). -/
def wd (p : Proc) : Nat :=
  match p.loc with
  | .L265 _ | .L268 | .L270 => 1
  | _ => 0

/-- Captain of group `g` that has reset `exitCounter`. -/
def capDone (g : Nat) (p : Proc) : Nat :=
  match p.loc with
  | .L273 | .L274 | .L276 => if p.group = g then 1 else 0
  | .done => if p.isCaptain ∧ p.group = g then 1 else 0
  | _ => 0

/-- Captain that has formed its group and not yet reset `exitCounter`
(lines 224-272). -/
def capLive (p : Proc) : Nat :=
  match p.loc with
  | .L224 _ | .L225 | .L233 _ | .L234 _ | .L235 | .L236
  | .L250 | .L251 | .L252 | .L255 | .L265 _ | .L268 | .L270 | .L271 | .L272 => 1
  | .L246 => if p.isCaptain then 1 else 0
  | _ => 0

/-- Captain that has formed its group and not yet logged `boards`. -/
def preBoard (p : Proc) : Nat :=
  match p.loc with
  | .L224 _ | .L225 | .L233 _ | .L234 _ | .L235 | .L236 | .L250 | .L251 => 1
  | .L246 => if p.isCaptain then 1 else 0
  | _ => 0

/-- Process that currently belongs to a group in flight: a captain from its
quorum test on, or a crew member from its permit to its exit. -/
def tagged (p : Proc) : Nat :=
  match p.loc with
  | .L224 _ | .L225 | .L233 _ | .L234 _ | .L235 | .L236
  | .L250 | .L251 | .L252 | .L255 | .L265 _ | .L268
  | .L270 | .L271 | .L272 | .L273 | .L274 | .L276
  | .L282 | .L283 | .L285 | .L287 | .L289 | .L292
  | .L294 | .L295 | .L296 | .L298 | .L299 | .L300 => 1
  | .L246 => if p.isCaptain then 1 else 0
  | _ => 0

/-- Ghost group tags never run ahead of the group counter, and a process in
flight carries the current group. -/
def grpOk (g : Nat) (p : Proc) : Prop :=
  p.group ≤ g ∧ (tagged p = 1 → p.group = g)

/-- Number of `member exits` records of group `g` in the transcript. -/
def memberExitsOf (out : List Record) (g : Nat) : Nat :=
  out.countP (fun r => r.action = .memberExits ∧ r.group = g)

/-- Number of records with a given action in the transcript. -/
def countAction (out : List Record) (x : Action) : Nat :=
  out.countP (fun r => r.action = x)

/-- Accounting of the semaphores of the boarding and cruise protocol. -/
structure Inv3 (sh : Shared) (l : List Proc) : Prop where
  idx : ∀ p ∈ l, idxOk p
  exitNonneg : 0 ≤ sh.exitCounter
  permits : ((sh.hackerQueue + sh.serfQueue + tot crewA l + tot crewC l : Nat) : Int)
      + sh.exitCounter = tot wq l
  sailing : ((sh.sailingDone + tot crewC l : Nat) : Int) + sh.exitCounter = tot ws l
  last : (sh.exitCounter = 3 ∧ tot crewD l = 0 → sh.captainLast + tot crewPoster l + tot wt l = 1)
      ∧ (¬(sh.exitCounter = 3 ∧ tot crewD l = 0) →
          sh.captainLast + tot crewPoster l + tot wt l = 0)
  leaving : tot crewX l ≤ tot wd l
  tags : ∀ p ∈ l, grpOk sh.groups p
  recTags : ∀ r ∈ sh.out, r.group ≤ sh.groups
  exits : (memberExitsOf sh.out sh.groups : Int)
      = sh.exitCounter + tot crewLogged l + 3 * tot (capDone sh.groups) l
  boards : countAction sh.out .boards + tot preBoard l = sh.groups
  single : tot (capDone sh.groups) l + tot capLive l ≤ 1

/-- Pier counters at rest: at most three of a class are waiting and no quorum
is left unformed. -/
def Stable (h s : Int) : Prop :=
  0 ≤ h ∧ h ≤ 3 ∧ 0 ≤ s ∧ s ≤ 3 ∧ (h ≤ 1 ∨ s ≤ 1)

/-- Process between its increment of `*pierCounter` (line 215) and the end of
the counter updates of the quorum test (lines 216-236). -/
def transient (p : Proc) : Nat :=
  match p.loc with
  | .L216 | .L217 | .L221 | .L224 _ | .L225 | .L230
  | .L233 _ | .L234 _ | .L235 | .L236 => 1
  | _ => 0

/-- What the process inside the quorum test knows about the pier counters. -/
def pierOk (sh : Shared) (p : Proc) : Prop :=
  match p.loc with
  | .L216 | .L217 | .L221 =>
    Stable (sh.pierCounter p.name - 1) (sh.pierCounter p.name.other)
  | .L224 _ | .L225 =>
    sh.pierCounter p.name = 4 ∧ 0 ≤ sh.pierCounter p.name.other ∧ sh.pierCounter p.name.other ≤ 1
  | .L230 =>
    sh.pierCounter p.name ≠ 4 ∧ Stable (sh.pierCounter p.name - 1) (sh.pierCounter p.name.other)
  | .L233 _ | .L234 _ | .L235 =>
    sh.pierCounter p.name = 2 ∧ 2 ≤ sh.pierCounter p.name.other ∧ sh.pierCounter p.name.other ≤ 3
  | .L236 =>
    sh.pierCounter p.name = 0 ∧ 2 ≤ sh.pierCounter p.name.other ∧ sh.pierCounter p.name.other ≤ 3
  | _ => True

/-- The pier counters: stable outside the quorum test, and never more than
five inside it. -/
structure Inv2 (sh : Shared) (l : List Proc) : Prop where
  stable : tot transient l = 0 → Stable sh.hackerPierCount sh.serfPierCount
  pier : ∀ p ∈ l, pierOk sh p

/-- Process of class `k` that has executed `(*pierCounter)++` (line 215). -/
def admitted (k : PersonClass) (p : Proc) : Nat :=
  match p.loc with
  | .L328 | .L329 | .L330 | .L186 | .L189 | .L192 | .L193 | .L199 | .L200 | .L201
  | .L210 | .L212 | .L214 | .L215 => 0
  | _ => if p.name = k then 1 else 0

/-- Process of class `k` that has passed `sem_wait(queue)` (line 246). -/
def passed (k : PersonClass) (p : Proc) : Nat :=
  match p.loc with
  | .L250 | .L251 | .L252 | .L255 | .L265 _ | .L268
  | .L270 | .L271 | .L272 | .L273 | .L274 | .L276
  | .L282 | .L283 | .L285 | .L287 | .L289 | .L292
  | .L294 | .L295 | .L296 | .L298 | .L299 | .L300 | .done => if p.name = k then 1 else 0
  | _ => 0

/-- Permits already posted to the queue of class `k` by a process that has
not yet subtracted them from the pier counter of class `k`. -/
def adj (k : PersonClass) (p : Proc) : Nat :=
  match p.loc with
  | .L224 i => if p.name = k then min i 4 else 0
  | .L225 => if p.name = k then 4 else 0
  | .L233 i => if p.name = k then min i 2 else 0
  | .L234 i => if p.name = k then 2 else min i 2
  | .L235 => 2
  | .L236 => if p.name = k then 0 else 2
  | _ => 0

/-- Posts of the group being formed, counted modulo 4. -/
def wm (p : Proc) : Nat :=
  match p.loc with
  | .L224 i => min i 4
  | .L233 i => min i 2
  | .L234 i => 2 + min i 2
  | _ => 0

/-- Per-class accounting of arrivals, pier counters and boarding permits. -/
structure Inv4 (sh : Shared) (l : List Proc) : Prop where
  hack : ((tot (admitted .HACK) l + tot (adj .HACK) l : Nat) : Int)
      = sh.hackerPierCount + ((sh.hackerQueue + tot (passed .HACK) l : Nat) : Int)
  serf : ((tot (admitted .SERF) l + tot (adj .SERF) l : Nat) : Int)
      = sh.serfPierCount + ((sh.serfQueue + tot (passed .SERF) l : Nat) : Int)
  hackEven : (sh.hackerQueue + tot (passed .HACK) l + tot (adj .HACK) l) % 2 = 0
  serfEven : (sh.serfQueue + tot (passed .SERF) l + tot (adj .SERF) l) % 2 = 0
  groups : (sh.hackerQueue + tot (passed .HACK) l + sh.serfQueue + tot (passed .SERF) l
      + 3 * tot wm l) % 4 = 0

/-- Record of the arrival `c` of class `k` that logs `leaves queue`, `is back`
or `waits`. -/
def isRetryRecord (k : PersonClass) (c : Int) (r : Record) : Bool :=
  decide (r.name = k) && decide (r.counter = c) &&
    (decide (r.action = .leavesQueue) || decide (r.action = .isBack)
      || decide (r.action = .waits))

/-- The `leaves queue`, `is back` and `waits` actions that the arrival `c` of
class `k` has logged, in the order of the transcript. -/
def retryActs (out : List Record) (k : PersonClass) (c : Int) : List Action :=
  (out.filter (isRetryRecord k c)).map (fun r => r.action)

/-- The action list `leaves queue, is back` repeated `n` times. -/
def pairs : Nat → List Action
  | 0 => []
  | n + 1 => pairs n ++ [.leavesQueue, .isBack]

/-- What an arrival at a given program point has logged after its last
complete `leaves queue`/`is back` pair: a `leaves queue` still to be answered
(lines 193-200), nothing (before line 217), or `waits` (admitted). -/
def phaseTail : Loc → List Action
  | .L328 | .L329 | .L330 | .L186 | .L189 | .L192 | .L201
  | .L210 | .L212 | .L214 | .L215 | .L216 => []
  | .L193 | .L199 | .L200 => [.leavesQueue]
  | _ => [.waits]

/-- The retry records of an arrival: complete pairs, then what its program
point says. -/
def Shape (out : List Record) (p : Proc) : Prop :=
  ∃ n, retryActs out p.name p.counter = pairs n ++ phaseTail p.loc

/-- The transcript of every arrival has the shape of its program point, and
every record was written by an arrival of the process list. -/
structure Inv7 (sh : Shared) (l : List Proc) : Prop where
  shape : ∀ p ∈ l, Shape sh.out p
  owned : ∀ r ∈ sh.out, ∃ p ∈ l, p.name = r.name ∧ p.counter = r.counter

/-- Process that has logged `starts` (it is past line 329). -/
def started (p : Proc) : Nat :=
  match p.loc with
  | .L328 | .L329 => 0
  | _ => 1

/-- The `counter` values (ids) of the arrivals of class `k`, in the order in
which they were forked. -/
def idsOf (k : PersonClass) (l : List Proc) : List Int :=
  (l.filter (fun p => p.name = k)).map (fun p => p.counter)

/-- The ids `1, 2, ..., n`. -/
def firstIds (n : Int) : List Int :=
  (List.range n.toNat).map (fun (j : Nat) => (j : Int) + 1)

/-- State of a generator against the arrivals it has forked: the loop
variable equals `*counter`, does not pass `numberOfPersons`, and the children
carry the ids `1 .. *counter`. -/
structure GenOk (a : Arguments) (g : Gen) (ids : List Int) : Prop where
  same : g.i = g.counter
  nonneg : 0 ≤ g.counter
  bound : 0 ≤ a.numberOfPersons → g.counter ≤ a.numberOfPersons
  ids : ids = firstIds g.counter

/-- Generators and the `starts` records. -/
structure Inv5 (a : Arguments) (s : State) : Prop where
  hack : GenOk a s.hackerGen (idsOf .HACK s.procs)
  serf : GenOk a s.serfGen (idsOf .SERF s.procs)
  starts : countAction s.sh.out .starts = tot started s.procs

/-- All invariants of a state that do not depend on the configuration. -/
structure Inv (a : Arguments) (s : State) : Prop where
  one : Inv1 s.sh s.procs
  two : Inv2 s.sh s.procs
  three : Inv3 s.sh s.procs
  four : Inv4 s.sh s.procs
  five : Inv5 a s

/-- Captain of a group in flight: from its quorum test to the moment before
it logs `captain exits` (lines 224-271). -/
def inFlight (p : Proc) : Bool :=
  match p.loc with
  | .L224 _ | .L225 | .L233 _ | .L234 _ | .L235 | .L236
  | .L250 | .L251 | .L252 | .L255 | .L265 _ | .L268 | .L270 | .L271 => true
  | .L246 => p.isCaptain
  | _ => false

/-- The generator of class `c` has left its loop without a failed `fork`. -/
def Gen.finished (a : Arguments) (g : Gen) : Bool :=
  !g.failed && !decide (g.i < a.numberOfPersons)

/-! ## Projections of the shared-state updates -/

@[simp] theorem setPierCounter_actionCounter (sh : Shared) (c : PersonClass) (v : Int) :
    (sh.setPierCounter c v).actionCounter = sh.actionCounter := by cases c <;> rfl

@[simp] theorem setQueue_actionCounter (sh : Shared) (c : PersonClass) (v : Nat) :
    (sh.setQueue c v).actionCounter = sh.actionCounter := by cases c <;> rfl

@[simp] theorem setQueue_hackerPierCount (sh : Shared) (c : PersonClass) (v : Nat) :
    (sh.setQueue c v).hackerPierCount = sh.hackerPierCount := by cases c <;> rfl

@[simp] theorem printAction_hackerPierCount (sh : Shared) (p : Proc) (x : Action) :
    (printAction sh p x).hackerPierCount = sh.hackerPierCount := rfl

@[simp] theorem setQueue_serfPierCount (sh : Shared) (c : PersonClass) (v : Nat) :
    (sh.setQueue c v).serfPierCount = sh.serfPierCount := by cases c <;> rfl

@[simp] theorem printAction_serfPierCount (sh : Shared) (p : Proc) (x : Action) :
    (printAction sh p x).serfPierCount = sh.serfPierCount := rfl

@[simp] theorem setPierCounter_exitCounter (sh : Shared) (c : PersonClass) (v : Int) :
    (sh.setPierCounter c v).exitCounter = sh.exitCounter := by cases c <;> rfl

@[simp] theorem setQueue_exitCounter (sh : Shared) (c : PersonClass) (v : Nat) :
    (sh.setQueue c v).exitCounter = sh.exitCounter := by cases c <;> rfl

@[simp] theorem printAction_exitCounter (sh : Shared) (p : Proc) (x : Action) :
    (printAction sh p x).exitCounter = sh.exitCounter := rfl

@[simp] theorem setPierCounter_onBoard (sh : Shared) (c : PersonClass) (v : Int) :
    (sh.setPierCounter c v).onBoard = sh.onBoard := by cases c <;> rfl

@[simp] theorem setQueue_onBoard (sh : Shared) (c : PersonClass) (v : Nat) :
    (sh.setQueue c v).onBoard = sh.onBoard := by cases c <;> rfl

@[simp] theorem printAction_onBoard (sh : Shared) (p : Proc) (x : Action) :
    (printAction sh p x).onBoard = sh.onBoard := rfl

@[simp] theorem setPierCounter_fileSem (sh : Shared) (c : PersonClass) (v : Int) :
    (sh.setPierCounter c v).fileSem = sh.fileSem := by cases c <;> rfl

@[simp] theorem setQueue_fileSem (sh : Shared) (c : PersonClass) (v : Nat) :
    (sh.setQueue c v).fileSem = sh.fileSem := by cases c <;> rfl

@[simp] theorem printAction_fileSem (sh : Shared) (p : Proc) (x : Action) :
    (printAction sh p x).fileSem = sh.fileSem := rfl

@[simp] theorem setPierCounter_hackerQueue (sh : Shared) (c : PersonClass) (v : Int) :
    (sh.setPierCounter c v).hackerQueue = sh.hackerQueue := by cases c <;> rfl

@[simp] theorem printAction_hackerQueue (sh : Shared) (p : Proc) (x : Action) :
    (printAction sh p x).hackerQueue = sh.hackerQueue := rfl

@[simp] theorem setPierCounter_serfQueue (sh : Shared) (c : PersonClass) (v : Int) :
    (sh.setPierCounter c v).serfQueue = sh.serfQueue := by cases c <;> rfl

@[simp] theorem printAction_serfQueue (sh : Shared) (p : Proc) (x : Action) :
    (printAction sh p x).serfQueue = sh.serfQueue := rfl

@[simp] theorem setPierCounter_sailingDone (sh : Shared) (c : PersonClass) (v : Int) :
    (sh.setPierCounter c v).sailingDone = sh.sailingDone := by cases c <;> rfl

@[simp] theorem setQueue_sailingDone (sh : Shared) (c : PersonClass) (v : Nat) :
    (sh.setQueue c v).sailingDone = sh.sailingDone := by cases c <;> rfl

@[simp] theorem printAction_sailingDone (sh : Shared) (p : Proc) (x : Action) :
    (printAction sh p x).sailingDone = sh.sailingDone := rfl

@[simp] theorem setPierCounter_captainLast (sh : Shared) (c : PersonClass) (v : Int) :
    (sh.setPierCounter c v).captainLast = sh.captainLast := by cases c <;> rfl

@[simp] theorem setQueue_captainLast (sh : Shared) (c : PersonClass) (v : Nat) :
    (sh.setQueue c v).captainLast = sh.captainLast := by cases c <;> rfl

@[simp] theorem printAction_captainLast (sh : Shared) (p : Proc) (x : Action) :
    (printAction sh p x).captainLast = sh.captainLast := rfl

@[simp] theorem setPierCounter_mutex (sh : Shared) (c : PersonClass) (v : Int) :
    (sh.setPierCounter c v).mutex = sh.mutex := by cases c <;> rfl

@[simp] theorem setQueue_mutex (sh : Shared) (c : PersonClass) (v : Nat) :
    (sh.setQueue c v).mutex = sh.mutex := by cases c <;> rfl

@[simp] theorem printAction_mutex (sh : Shared) (p : Proc) (x : Action) :
    (printAction sh p x).mutex = sh.mutex := rfl

@[simp] theorem setPierCounter_boardingDone (sh : Shared) (c : PersonClass) (v : Int) :
    (sh.setPierCounter c v).boardingDone = sh.boardingDone := by cases c <;> rfl

@[simp] theorem setQueue_boardingDone (sh : Shared) (c : PersonClass) (v : Nat) :
    (sh.setQueue c v).boardingDone = sh.boardingDone := by cases c <;> rfl

@[simp] theorem printAction_boardingDone (sh : Shared) (p : Proc) (x : Action) :
    (printAction sh p x).boardingDone = sh.boardingDone := rfl

@[simp] theorem setPierCounter_out (sh : Shared) (c : PersonClass) (v : Int) :
    (sh.setPierCounter c v).out = sh.out := by cases c <;> rfl

@[simp] theorem setQueue_out (sh : Shared) (c : PersonClass) (v : Nat) :
    (sh.setQueue c v).out = sh.out := by cases c <;> rfl

@[simp] theorem setPierCounter_groups (sh : Shared) (c : PersonClass) (v : Int) :
    (sh.setPierCounter c v).groups = sh.groups := by cases c <;> rfl

@[simp] theorem setQueue_groups (sh : Shared) (c : PersonClass) (v : Nat) :
    (sh.setQueue c v).groups = sh.groups := by cases c <;> rfl

@[simp] theorem printAction_groups (sh : Shared) (p : Proc) (x : Action) :
    (printAction sh p x).groups = sh.groups := rfl

@[simp] theorem setPierCounter_HACK (sh : Shared) (v : Int) :
    (sh.setPierCounter .HACK v).hackerPierCount = v ∧
    (sh.setPierCounter .HACK v).serfPierCount = sh.serfPierCount := ⟨rfl, rfl⟩
@[simp] theorem setPierCounter_SERF (sh : Shared) (v : Int) :
    (sh.setPierCounter .SERF v).serfPierCount = v ∧
    (sh.setPierCounter .SERF v).hackerPierCount = sh.hackerPierCount := ⟨rfl, rfl⟩
@[simp] theorem setQueue_HACK (sh : Shared) (v : Nat) :
    (sh.setQueue .HACK v).hackerQueue = v ∧
    (sh.setQueue .HACK v).serfQueue = sh.serfQueue := ⟨rfl, rfl⟩
@[simp] theorem setQueue_SERF (sh : Shared) (v : Nat) :
    (sh.setQueue .SERF v).serfQueue = v ∧
    (sh.setQueue .SERF v).hackerQueue = sh.hackerQueue := ⟨rfl, rfl⟩
@[simp] theorem printAction_out (sh : Shared) (p : Proc) (x : Action) :
    (printAction sh p x).out = sh.out ++
      [⟨sh.actionCounter, p.name, p.counter, x,
        if x = .starts ∨ x = .isBack then none else some (sh.hackerPierCount, sh.serfPierCount),
        p.group⟩] := rfl
@[simp] theorem printAction_actionCounter (sh : Shared) (p : Proc) (x : Action) :
    (printAction sh p x).actionCounter = sh.actionCounter + 1 := rfl

@[simp] theorem notePost_actionCounter (sh : Shared) (c : PersonClass) :
    (sh.notePost c).actionCounter = sh.actionCounter := by cases c <;> rfl

@[simp] theorem notePost_hackerPierCount (sh : Shared) (c : PersonClass) :
    (sh.notePost c).hackerPierCount = sh.hackerPierCount := by cases c <;> rfl

@[simp] theorem notePost_serfPierCount (sh : Shared) (c : PersonClass) :
    (sh.notePost c).serfPierCount = sh.serfPierCount := by cases c <;> rfl

@[simp] theorem notePost_exitCounter (sh : Shared) (c : PersonClass) :
    (sh.notePost c).exitCounter = sh.exitCounter := by cases c <;> rfl

@[simp] theorem notePost_onBoard (sh : Shared) (c : PersonClass) :
    (sh.notePost c).onBoard = sh.onBoard := by cases c <;> rfl

@[simp] theorem notePost_fileSem (sh : Shared) (c : PersonClass) :
    (sh.notePost c).fileSem = sh.fileSem := by cases c <;> rfl

@[simp] theorem notePost_hackerQueue (sh : Shared) (c : PersonClass) :
    (sh.notePost c).hackerQueue = sh.hackerQueue := by cases c <;> rfl

@[simp] theorem notePost_serfQueue (sh : Shared) (c : PersonClass) :
    (sh.notePost c).serfQueue = sh.serfQueue := by cases c <;> rfl

@[simp] theorem notePost_sailingDone (sh : Shared) (c : PersonClass) :
    (sh.notePost c).sailingDone = sh.sailingDone := by cases c <;> rfl

@[simp] theorem notePost_captainLast (sh : Shared) (c : PersonClass) :
    (sh.notePost c).captainLast = sh.captainLast := by cases c <;> rfl

@[simp] theorem notePost_mutex (sh : Shared) (c : PersonClass) :
    (sh.notePost c).mutex = sh.mutex := by cases c <;> rfl

@[simp] theorem notePost_boardingDone (sh : Shared) (c : PersonClass) :
    (sh.notePost c).boardingDone = sh.boardingDone := by cases c <;> rfl

@[simp] theorem notePost_out (sh : Shared) (c : PersonClass) :
    (sh.notePost c).out = sh.out := by cases c <;> rfl

@[simp] theorem notePost_groups (sh : Shared) (c : PersonClass) :
    (sh.notePost c).groups = sh.groups := by cases c <;> rfl

@[simp] theorem setPierCounter_hackerPosted (sh : Shared) (c : PersonClass) (v : Int) :
    (sh.setPierCounter c v).hackerPosted = sh.hackerPosted := by cases c <;> rfl

@[simp] theorem setQueue_hackerPosted (sh : Shared) (c : PersonClass) (v : Nat) :
    (sh.setQueue c v).hackerPosted = sh.hackerPosted := by cases c <;> rfl

@[simp] theorem printAction_hackerPosted (sh : Shared) (p : Proc) (x : Action) :
    (printAction sh p x).hackerPosted = sh.hackerPosted := rfl

@[simp] theorem setPierCounter_serfPosted (sh : Shared) (c : PersonClass) (v : Int) :
    (sh.setPierCounter c v).serfPosted = sh.serfPosted := by cases c <;> rfl

@[simp] theorem setQueue_serfPosted (sh : Shared) (c : PersonClass) (v : Nat) :
    (sh.setQueue c v).serfPosted = sh.serfPosted := by cases c <;> rfl

@[simp] theorem printAction_serfPosted (sh : Shared) (p : Proc) (x : Action) :
    (printAction sh p x).serfPosted = sh.serfPosted := rfl

@[simp] theorem notePost_HACK (sh : Shared) :
    (sh.notePost .HACK).hackerPosted = sh.hackerPosted + 1 ∧
    (sh.notePost .HACK).serfPosted = sh.serfPosted := ⟨rfl, rfl⟩
@[simp] theorem notePost_SERF (sh : Shared) :
    (sh.notePost .SERF).serfPosted = sh.serfPosted + 1 ∧
    (sh.notePost .SERF).hackerPosted = sh.hackerPosted := ⟨rfl, rfl⟩
@[simp] theorem notePost_queue (sh : Shared) (c k : PersonClass) :
    (sh.notePost c).queue k = sh.queue k := by cases c <;> cases k <;> rfl
@[simp] theorem notePost_pierCounter (sh : Shared) (c k : PersonClass) :
    (sh.notePost c).pierCounter k = sh.pierCounter k := by cases c <;> cases k <;> rfl

/-! ## Sums over the process list -/

@[simp] theorem tot_nil (f : Proc → Nat) : tot f [] = 0 := rfl

@[simp] theorem tot_cons (f : Proc → Nat) (p : Proc) (l : List Proc) :
    tot f (p :: l) = f p + tot f l := by simp [tot]

theorem tot_append (f : Proc → Nat) (l m : List Proc) :
    tot f (l ++ m) = tot f l + tot f m := by simp [tot]

theorem tot_mid (f : Proc → Nat) (pre post : List Proc) (p : Proc) :
    tot f (pre ++ p :: post) = f p + tot f (pre ++ post) := by
  simp [tot_append]; omega

theorem tot_zero_mem {f : Proc → Nat} {l : List Proc} (h : tot f l = 0) :
    ∀ q ∈ l, f q = 0 := by
  induction l with
  | nil => simp
  | cons x xs ih =>
    simp at h
    intro q hq
    rcases List.mem_cons.1 hq with rfl | hq
    · exact h.1
    · exact ih h.2 q hq

theorem inv1_proc {a : Arguments} {sh sh' : Shared} {p p' : Proc} {rest : List Proc}
    (h : Inv1 sh (p :: rest)) (hs : procStep a sh p = some (sh', p')) :
    Inv1 sh' (p' :: rest) := by
  obtain ⟨hf, hm, hc⟩ := h
  obtain ⟨name, counter, loc, cap, grp⟩ := p
  have hcp := hc _ (List.mem_cons_self _ _)
  have hcr : ∀ q ∈ rest, capOk q := fun q hq => hc q (List.mem_cons_of_mem _ hq)
  simp only [tot_cons] at hf hm
  cases loc <;>
    simp only [procStep, joinPear, Proc.goto, loopNext] at hs <;>
    (try split at hs) <;> (try split at hs) <;>
    simp only [Option.some.injEq, Prod.mk.injEq, reduceCtorEq] at hs <;>
    (try obtain ⟨rfl, rfl⟩ := hs) <;>
    (simp only [capOk] at hcp) <;>
    (try simp only [Bool.not_eq_true] at *) <;>
    (try subst_vars) <;>
    exact ⟨by simp [holdsFile, holdsMutex] at hf hm ⊢; omega,
           by simp [holdsFile, holdsMutex] at hf hm ⊢; omega,
           by
             intro q hq
             rcases List.mem_cons.1 hq with rfl | hq
             · simp [capOk]
             · exact hcr q hq⟩

theorem tot_le_mul {f g : Proc → Nat} (k : Nat) (h : ∀ q, f q ≤ k * g q) (l : List Proc) :
    tot f l ≤ k * tot g l := by
  induction l with
  | nil => simp
  | cons x xs ih => simp only [tot_cons]; have := h x; nlinarith

theorem tot_le_mul2 {f g g' : Proc → Nat} (k : Nat) (h : ∀ q, f q ≤ k * (g q + g' q))
    (l : List Proc) : tot f l ≤ k * (tot g l + tot g' l) := by
  induction l with
  | nil => simp
  | cons x xs ih => simp only [tot_cons]; have := h x; nlinarith

theorem wq_le (q : Proc) : wq q ≤ 4 * holdsMutex q := by
  obtain ⟨n, c, loc, cap, g⟩ := q
  cases loc <;> simp [wq, holdsMutex] <;> omega

theorem ws_le (q : Proc) : ws q ≤ 3 * holdsMutex q := by
  obtain ⟨n, c, loc, cap, g⟩ := q
  cases loc <;> simp [ws, holdsMutex]

theorem ws_le_wd (q : Proc) : ws q ≤ 3 * (wd q + holdsFile q) := by
  obtain ⟨n, c, loc, cap, g⟩ := q
  cases loc <;> simp [ws, wd, holdsFile]

theorem wt_le (q : Proc) : wt q ≤ 1 * holdsMutex q := by
  obtain ⟨n, c, loc, cap, g⟩ := q
  cases loc <;> simp [wt, holdsMutex]

theorem wd_le (q : Proc) : wd q ≤ 1 * holdsMutex q := by
  obtain ⟨n, c, loc, cap, g⟩ := q
  cases loc <;> simp [wd, holdsMutex]

theorem preBoard_le (q : Proc) : preBoard q ≤ 1 * holdsMutex q := by
  obtain ⟨n, c, loc, cap, g⟩ := q
  cases loc <;> simp [preBoard, holdsMutex]

theorem crewX_le (q : Proc) : crewX q ≤ 1 * holdsFile q := by
  obtain ⟨n, c, loc, cap, g⟩ := q
  cases loc <;> simp [crewX, holdsFile]

theorem crewD_le (q : Proc) : crewD q ≤ 1 * holdsFile q := by
  obtain ⟨n, c, loc, cap, g⟩ := q
  cases loc <;> simp [crewD, holdsFile]

theorem crewPoster_le (q : Proc) : crewPoster q ≤ 1 * holdsFile q := by
  obtain ⟨n, c, loc, cap, g⟩ := q
  cases loc <;> simp [crewPoster, holdsFile]

theorem crewLogged_le (q : Proc) : crewLogged q ≤ 1 * holdsFile q := by
  obtain ⟨n, c, loc, cap, g⟩ := q
  cases loc <;> simp [crewLogged, holdsFile]

theorem crewLogged_le_crewC (q : Proc) : crewLogged q ≤ 1 * crewC q := by
  obtain ⟨n, c, loc, cap, g⟩ := q
  cases loc <;> simp [crewLogged, crewC]

theorem memberExitsOf_succ {out : List Record} {g : Nat} (h : ∀ r ∈ out, r.group ≤ g) :
    memberExitsOf out (g + 1) = 0 := by
  unfold memberExitsOf
  rw [List.countP_eq_zero]
  intro r hr
  have := h r hr
  simp
  omega

theorem capDone_succ {l : List Proc} {g : Nat} (h : ∀ q ∈ l, grpOk g q) :
    tot (capDone (g + 1)) l = 0 := by
  induction l with
  | nil => simp
  | cons x xs ih =>
    have hx := (h x (List.mem_cons_self _ _)).1
    have := ih (fun q hq => h q (List.mem_cons_of_mem _ hq))
    obtain ⟨n, c, loc, cap, gr⟩ := x
    simp only [tot_cons, this]
    cases loc <;> simp [capDone] <;> (simp at hx; omega)

theorem tagged_le (q : Proc) : tagged q ≤ 1 * (holdsMutex q + (crewA q + crewC q + crewX q)) := by
  obtain ⟨n, c, loc, cap, g⟩ := q
  cases loc <;> simp [tagged, holdsMutex, crewA, crewC, crewX]

/-! ## Preservation of the accounting invariant by a process step -/

theorem tot_tagged_le (l : List Proc) :
    tot tagged l ≤ tot holdsMutex l + tot crewA l + tot crewC l + tot crewX l := by
  induction l with
  | nil => simp
  | cons x xs ih =>
    have := tagged_le x
    simp only [tot_cons]
    omega

theorem grpOk_succ {g : Nat} {q : Proc} (h : grpOk g q) (ht : tagged q = 0) :
    grpOk (g + 1) q := by
  refine ⟨Nat.le_succ_of_le h.1, ?_⟩
  intro h1
  omega

set_option maxHeartbeats 4000000 in
theorem inv3_idx {a : Arguments} {sh sh' : Shared} {p p' : Proc} {rest : List Proc}
    (h3 : Inv3 sh (p :: rest))
    (hs : procStep a sh p = some (sh', p')) :
    ∀ q ∈ p' :: rest, idxOk q := by
  have hir : ∀ q ∈ rest, idxOk q := fun q hq => h3.idx q (List.mem_cons_of_mem _ hq)
  have hip := h3.idx _ (List.mem_cons_self _ _)
  clear h3
  refine List.forall_mem_cons.2 ⟨?_, hir⟩
  revert hip
  obtain ⟨name, counter, loc, cap, grp⟩ := p
  cases loc <;>
    simp only [procStep, joinPear, Proc.goto, loopNext] at hs <;>
    (try split at hs) <;> (try split at hs) <;>
    simp only [Option.some.injEq, Prod.mk.injEq, reduceCtorEq] at hs <;>
    (try obtain ⟨rfl, rfl⟩ := hs) <;>
    intro hip <;>
    simp only [idxOk] at hip ⊢ <;>
    omega

set_option maxHeartbeats 4000000 in
theorem inv3_G {a : Arguments} {sh sh' : Shared} {p p' : Proc} {rest : List Proc}
    (h1 : Inv1 sh (p :: rest)) (h3 : Inv3 sh (p :: rest))
    (hs : procStep a sh p = some (sh', p')) :
    ∀ q ∈ p' :: rest, grpOk sh'.groups q := by
  have r1 := tot_le_mul 4 wq_le rest
  have r5 := tot_le_mul 1 wd_le rest
  have r7 := tot_tagged_le rest
  have hGr : ∀ q ∈ rest, grpOk sh.groups q := fun q hq => h3.tags q (List.mem_cons_of_mem _ hq)
  revert h1 h3
  obtain ⟨name, counter, loc, cap, grp⟩ := p
  cases loc <;>
    simp only [procStep, joinPear, Proc.goto, loopNext] at hs <;>
    (try split at hs) <;> (try split at hs) <;>
    simp only [Option.some.injEq, Prod.mk.injEq, reduceCtorEq] at hs <;>
    (try obtain ⟨rfl, rfl⟩ := hs) <;>
    intro h1 h3 <;>
    (have hm := h1.mutex) <;>
    (have hE := h3.exitNonneg) <;>
    (have hQ := h3.permits) <;>
    (have hD := h3.leaving) <;>
    (have hcp := h1.cap _ (List.mem_cons_self _ _)) <;>
    (have hGp := h3.tags _ (List.mem_cons_self _ _)) <;>
    clear h1 h3 <;>
    (simp only [capOk] at hcp) <;>
    (try simp only [Bool.not_eq_true] at *) <;>
    (try subst_vars) <;>
    (simp only [tot_cons, grpOk, tagged, crewA, crewC, crewX, wq, wd, holdsMutex,
      setQueue_groups, notePost_groups, setPierCounter_groups, printAction_groups,
      ↓reduceIte, Bool.false_eq_true, true_implies, false_implies, and_true] at hm hE hQ hD hGp ⊢) <;>
    refine List.forall_mem_cons.2 ⟨?_, ?_⟩ <;>
    first
    | exact hGr
    | (intro q hq; exact grpOk_succ (hGr q hq) (tot_zero_mem (by omega) q hq))
    | (simp only [grpOk, tagged, ↓reduceIte, Bool.false_eq_true, true_implies, false_implies,
        and_true, le_refl, and_self]
       try omega)

set_option maxHeartbeats 4000000 in
theorem inv3_R {a : Arguments} {sh sh' : Shared} {p p' : Proc} {rest : List Proc}
    (h3 : Inv3 sh (p :: rest))
    (hs : procStep a sh p = some (sh', p')) :
    ∀ r ∈ sh'.out, r.group ≤ sh'.groups := by
  have hR := h3.recTags
  have hGp := (h3.tags _ (List.mem_cons_self _ _)).1
  clear h3
  revert hGp
  obtain ⟨name, counter, loc, cap, grp⟩ := p
  cases loc <;>
    simp only [procStep, joinPear, Proc.goto, loopNext] at hs <;>
    (try split at hs) <;> (try split at hs) <;>
    simp only [Option.some.injEq, Prod.mk.injEq, reduceCtorEq] at hs <;>
    (try obtain ⟨rfl, rfl⟩ := hs) <;>
    intro hGp <;>
    (try simp only [setQueue_groups, notePost_groups, setPierCounter_groups, printAction_groups,
      setQueue_out, notePost_out, setPierCounter_out, printAction_out, List.mem_append, List.mem_singleton]) <;>
    intro r hr <;>
    first
    | exact hR r hr
    | (have hx := hR r hr; omega)
    | (rcases hr with hr | rfl
       · exact hR r hr
       · exact hGp)

set_option maxHeartbeats 4000000 in
theorem inv3_E {a : Arguments} {sh sh' : Shared} {p p' : Proc} {rest : List Proc}
    (h1 : Inv1 sh (p :: rest)) (h3 : Inv3 sh (p :: rest))
    (hs : procStep a sh p = some (sh', p')) :
    0 ≤ sh'.exitCounter := by

  revert h1 h3
  obtain ⟨name, counter, loc, cap, grp⟩ := p
  cases loc <;>
    simp only [procStep, joinPear, Proc.goto, loopNext] at hs <;>
    (try split at hs) <;> (try split at hs) <;>
    simp only [Option.some.injEq, Prod.mk.injEq, reduceCtorEq] at hs <;>
    (try obtain ⟨rfl, rfl⟩ := hs) <;>
    intro h1 h3 <;>
    (have hE := h3.exitNonneg) <;>
    clear h1 h3 <;>
    (try simp only [tot_cons, capOk, idxOk, grpOk, tagged,
      crewA, crewC, crewD, crewLogged, crewPoster, crewX, wq, ws, wt, wd,
      capDone, preBoard, holdsFile, holdsMutex,
      setQueue_exitCounter, notePost_exitCounter, setPierCounter_hackerQueue, notePost_hackerQueue, setPierCounter_serfQueue, notePost_serfQueue,
      setPierCounter_exitCounter, printAction_hackerQueue, printAction_serfQueue,
      printAction_exitCounter, setQueue_sailingDone, notePost_sailingDone, setPierCounter_sailingDone,
      printAction_sailingDone, setQueue_captainLast, notePost_captainLast, setPierCounter_captainLast,
      printAction_captainLast, setQueue_groups, notePost_groups, setPierCounter_groups, printAction_groups,
      setQueue_out, notePost_out, setPierCounter_out, printAction_out,
      memberExitsOf, countAction, List.countP_append, List.countP_cons, List.countP_nil,
      ↓reduceIte, Bool.false_eq_true, Bool.not_eq_true, reduceCtorEq, decide_False, decide_True,
      false_and, true_and, and_true, and_false, ite_true, ite_false, if_true, if_false,
      true_implies, false_implies]
      at hE ⊢) <;>
    (try (have hg2 := hGp.2; clear hGp)) <;>
    (try simp only [Bool.not_eq_true] at *) <;>
    (try subst_vars) <;>
    (try simp only [↓reduceIte, Bool.false_eq_true, and_self, and_true, true_and,
      decide_True, decide_False] at *) <;>
    (try omega) <;>
    (try (split_ifs at * <;> omega))

set_option maxHeartbeats 4000000 in
theorem inv3_Q {a : Arguments} {sh sh' : Shared} {p p' : Proc} {rest : List Proc}
    (h1 : Inv1 sh (p :: rest)) (h3 : Inv3 sh (p :: rest))
    (hs : procStep a sh p = some (sh', p')) :
    ((sh'.hackerQueue + sh'.serfQueue + tot crewA (p' :: rest) + tot crewC (p' :: rest) : Nat) : Int) + sh'.exitCounter = tot wq (p' :: rest) := by
  have r1 := tot_le_mul 4 wq_le rest
  have r4 := tot_le_mul 1 wt_le rest
  revert h1 h3
  obtain ⟨name, counter, loc, cap, grp⟩ := p
  cases loc <;>
    simp only [procStep, joinPear, Proc.goto, loopNext] at hs <;>
    (try split at hs) <;> (try split at hs) <;>
    simp only [Option.some.injEq, Prod.mk.injEq, reduceCtorEq] at hs <;>
    (try obtain ⟨rfl, rfl⟩ := hs) <;>
    intro h1 h3 <;>
    (have hf := h1.file) <;>
    (have hm := h1.mutex) <;>
    (have hQ := h3.permits) <;>
    (have hT := h3.last) <;>
    (have hcp := h1.cap _ (List.mem_cons_self _ _)) <;>
    (have hip := h3.idx _ (List.mem_cons_self _ _)) <;>
    clear h1 h3 <;>
    (try simp only [tot_cons, capOk, idxOk, grpOk, tagged,
      crewA, crewC, crewD, crewLogged, crewPoster, crewX, wq, ws, wt, wd,
      capDone, preBoard, holdsFile, holdsMutex,
      setQueue_exitCounter, notePost_exitCounter, setPierCounter_hackerQueue, notePost_hackerQueue, setPierCounter_serfQueue, notePost_serfQueue,
      setPierCounter_exitCounter, printAction_hackerQueue, printAction_serfQueue,
      printAction_exitCounter, setQueue_sailingDone, notePost_sailingDone, setPierCounter_sailingDone,
      printAction_sailingDone, setQueue_captainLast, notePost_captainLast, setPierCounter_captainLast,
      printAction_captainLast, setQueue_groups, notePost_groups, setPierCounter_groups, printAction_groups,
      setQueue_out, notePost_out, setPierCounter_out, printAction_out,
      memberExitsOf, countAction, List.countP_append, List.countP_cons, List.countP_nil,
      ↓reduceIte, Bool.false_eq_true, Bool.not_eq_true, reduceCtorEq, decide_False, decide_True,
      false_and, true_and, and_true, and_false, ite_true, ite_false, if_true, if_false,
      true_implies, false_implies]
      at hf hm hQ hT r1 r4 hcp hip ⊢) <;>
    (try (have hg2 := hGp.2; clear hGp)) <;>
    (try simp only [Bool.not_eq_true] at *) <;>
    (try subst_vars) <;>
    (try simp only [↓reduceIte, Bool.false_eq_true, and_self, and_true, true_and,
      decide_True, decide_False] at *) <;>
    (try omega) <;>
    (try (split_ifs at * <;> omega)) <;>
    (cases name <;> simp only [Shared.queue, Shared.setQueue, Shared.notePost, PersonClass.other] at * <;> omega)

set_option maxHeartbeats 4000000 in
theorem inv3_S {a : Arguments} {sh sh' : Shared} {p p' : Proc} {rest : List Proc}
    (h1 : Inv1 sh (p :: rest)) (h3 : Inv3 sh (p :: rest))
    (hs : procStep a sh p = some (sh', p')) :
    ((sh'.sailingDone + tot crewC (p' :: rest) : Nat) : Int) + sh'.exitCounter = tot ws (p' :: rest) := by
  have r2 := tot_le_mul 3 ws_le rest
  have r4 := tot_le_mul 1 wt_le rest
  revert h1 h3
  obtain ⟨name, counter, loc, cap, grp⟩ := p
  cases loc <;>
    simp only [procStep, joinPear, Proc.goto, loopNext] at hs <;>
    (try split at hs) <;> (try split at hs) <;>
    simp only [Option.some.injEq, Prod.mk.injEq, reduceCtorEq] at hs <;>
    (try obtain ⟨rfl, rfl⟩ := hs) <;>
    intro h1 h3 <;>
    (have hf := h1.file) <;>
    (have hm := h1.mutex) <;>
    (have hS := h3.sailing) <;>
    (have hT := h3.last) <;>
    (have hcp := h1.cap _ (List.mem_cons_self _ _)) <;>
    (have hip := h3.idx _ (List.mem_cons_self _ _)) <;>
    clear h1 h3 <;>
    (try simp only [tot_cons, capOk, idxOk, grpOk, tagged,
      crewA, crewC, crewD, crewLogged, crewPoster, crewX, wq, ws, wt, wd,
      capDone, preBoard, holdsFile, holdsMutex,
      setQueue_exitCounter, notePost_exitCounter, setPierCounter_hackerQueue, notePost_hackerQueue, setPierCounter_serfQueue, notePost_serfQueue,
      setPierCounter_exitCounter, printAction_hackerQueue, printAction_serfQueue,
      printAction_exitCounter, setQueue_sailingDone, notePost_sailingDone, setPierCounter_sailingDone,
      printAction_sailingDone, setQueue_captainLast, notePost_captainLast, setPierCounter_captainLast,
      printAction_captainLast, setQueue_groups, notePost_groups, setPierCounter_groups, printAction_groups,
      setQueue_out, notePost_out, setPierCounter_out, printAction_out,
      memberExitsOf, countAction, List.countP_append, List.countP_cons, List.countP_nil,
      ↓reduceIte, Bool.false_eq_true, Bool.not_eq_true, reduceCtorEq, decide_False, decide_True,
      false_and, true_and, and_true, and_false, ite_true, ite_false, if_true, if_false,
      true_implies, false_implies]
      at hf hm hS hT r2 r4 hcp hip ⊢) <;>
    (try (have hg2 := hGp.2; clear hGp)) <;>
    (try simp only [Bool.not_eq_true] at *) <;>
    (try subst_vars) <;>
    (try simp only [↓reduceIte, Bool.false_eq_true, and_self, and_true, true_and,
      decide_True, decide_False] at *) <;>
    (try omega) <;>
    (try (split_ifs at * <;> omega))

set_option maxHeartbeats 4000000 in
theorem inv3_T {a : Arguments} {sh sh' : Shared} {p p' : Proc} {rest : List Proc}
    (h1 : Inv1 sh (p :: rest)) (h3 : Inv3 sh (p :: rest))
    (hs : procStep a sh p = some (sh', p')) :
    (sh'.exitCounter = 3 ∧ tot crewD (p' :: rest) = 0 → sh'.captainLast + tot crewPoster (p' :: rest) + tot wt (p' :: rest) = 1) ∧ (¬(sh'.exitCounter = 3 ∧ tot crewD (p' :: rest) = 0) → sh'.captainLast + tot crewPoster (p' :: rest) + tot wt (p' :: rest) = 0) := by
  have r2 := tot_le_mul 3 ws_le rest
  have r4 := tot_le_mul 1 wt_le rest
  have r8 := tot_le_mul 1 crewD_le rest
  have r9 := tot_le_mul 1 crewPoster_le rest
  revert h1 h3
  obtain ⟨name, counter, loc, cap, grp⟩ := p
  cases loc <;>
    simp only [procStep, joinPear, Proc.goto, loopNext] at hs <;>
    (try split at hs) <;> (try split at hs) <;>
    simp only [Option.some.injEq, Prod.mk.injEq, reduceCtorEq] at hs <;>
    (try obtain ⟨rfl, rfl⟩ := hs) <;>
    intro h1 h3 <;>
    (have hf := h1.file) <;>
    (have hm := h1.mutex) <;>
    (have hE := h3.exitNonneg) <;>
    (have hS := h3.sailing) <;>
    (have hT := h3.last) <;>
    (have hcp := h1.cap _ (List.mem_cons_self _ _)) <;>
    (have hip := h3.idx _ (List.mem_cons_self _ _)) <;>
    clear h1 h3 <;>
    (try simp only [tot_cons, capOk, idxOk, grpOk, tagged,
      crewA, crewC, crewD, crewLogged, crewPoster, crewX, wq, ws, wt, wd,
      capDone, preBoard, holdsFile, holdsMutex,
      setQueue_exitCounter, notePost_exitCounter, setPierCounter_hackerQueue, notePost_hackerQueue, setPierCounter_serfQueue, notePost_serfQueue,
      setPierCounter_exitCounter, printAction_hackerQueue, printAction_serfQueue,
      printAction_exitCounter, setQueue_sailingDone, notePost_sailingDone, setPierCounter_sailingDone,
      printAction_sailingDone, setQueue_captainLast, notePost_captainLast, setPierCounter_captainLast,
      printAction_captainLast, setQueue_groups, notePost_groups, setPierCounter_groups, printAction_groups,
      setQueue_out, notePost_out, setPierCounter_out, printAction_out,
      memberExitsOf, countAction, List.countP_append, List.countP_cons, List.countP_nil,
      ↓reduceIte, Bool.false_eq_true, Bool.not_eq_true, reduceCtorEq, decide_False, decide_True,
      false_and, true_and, and_true, and_false, ite_true, ite_false, if_true, if_false,
      true_implies, false_implies]
      at hf hm hE hS hT r2 r4 r8 r9 hcp hip ⊢) <;>
    (try (have hg2 := hGp.2; clear hGp)) <;>
    (try simp only [Bool.not_eq_true] at *) <;>
    (try subst_vars) <;>
    (try simp only [↓reduceIte, Bool.false_eq_true, and_self, and_true, true_and,
      decide_True, decide_False] at *) <;>
    (try omega) <;>
    (try (split_ifs at * <;> omega))

set_option maxHeartbeats 4000000 in
theorem inv3_D {a : Arguments} {sh sh' : Shared} {p p' : Proc} {rest : List Proc}
    (h1 : Inv1 sh (p :: rest)) (h3 : Inv3 sh (p :: rest))
    (hs : procStep a sh p = some (sh', p')) :
    tot crewX (p' :: rest) ≤ tot wd (p' :: rest) := by
  have r2 := tot_le_mul 3 ws_le rest
  have r3 := tot_le_mul2 3 ws_le_wd rest
  have r5 := tot_le_mul 1 wd_le rest
  have r7 := tot_le_mul 1 crewX_le rest
  revert h1 h3
  obtain ⟨name, counter, loc, cap, grp⟩ := p
  cases loc <;>
    simp only [procStep, joinPear, Proc.goto, loopNext] at hs <;>
    (try split at hs) <;> (try split at hs) <;>
    simp only [Option.some.injEq, Prod.mk.injEq, reduceCtorEq] at hs <;>
    (try obtain ⟨rfl, rfl⟩ := hs) <;>
    intro h1 h3 <;>
    (have hf := h1.file) <;>
    (have hm := h1.mutex) <;>
    (have hE := h3.exitNonneg) <;>
    (have hS := h3.sailing) <;>
    (have hD := h3.leaving) <;>
    (have hcp := h1.cap _ (List.mem_cons_self _ _)) <;>
    (have hip := h3.idx _ (List.mem_cons_self _ _)) <;>
    clear h1 h3 <;>
    (try simp only [tot_cons, capOk, idxOk, grpOk, tagged,
      crewA, crewC, crewD, crewLogged, crewPoster, crewX, wq, ws, wt, wd,
      capDone, preBoard, holdsFile, holdsMutex,
      setQueue_exitCounter, notePost_exitCounter, setPierCounter_hackerQueue, notePost_hackerQueue, setPierCounter_serfQueue, notePost_serfQueue,
      setPierCounter_exitCounter, printAction_hackerQueue, printAction_serfQueue,
      printAction_exitCounter, setQueue_sailingDone, notePost_sailingDone, setPierCounter_sailingDone,
      printAction_sailingDone, setQueue_captainLast, notePost_captainLast, setPierCounter_captainLast,
      printAction_captainLast, setQueue_groups, notePost_groups, setPierCounter_groups, printAction_groups,
      setQueue_out, notePost_out, setPierCounter_out, printAction_out,
      memberExitsOf, countAction, List.countP_append, List.countP_cons, List.countP_nil,
      ↓reduceIte, Bool.false_eq_true, Bool.not_eq_true, reduceCtorEq, decide_False, decide_True,
      false_and, true_and, and_true, and_false, ite_true, ite_false, if_true, if_false,
      true_implies, false_implies]
      at hf hm hE hS hD r2 r3 r5 r7 hcp hip ⊢) <;>
    (try (have hg2 := hGp.2; clear hGp)) <;>
    (try simp only [Bool.not_eq_true] at *) <;>
    (try subst_vars) <;>
    (try simp only [↓reduceIte, Bool.false_eq_true, and_self, and_true, true_and,
      decide_True, decide_False] at *) <;>
    (try omega) <;>
    (try (split_ifs at * <;> omega))

set_option maxHeartbeats 4000000 in
theorem inv3_X {a : Arguments} {sh sh' : Shared} {p p' : Proc} {rest : List Proc}
    (h1 : Inv1 sh (p :: rest)) (h3 : Inv3 sh (p :: rest))
    (hs : procStep a sh p = some (sh', p')) :
    (memberExitsOf sh'.out sh'.groups : Int) = sh'.exitCounter + tot crewLogged (p' :: rest) + 3 * tot (capDone sh'.groups) (p' :: rest) := by
  have r1 := tot_le_mul 4 wq_le rest
  have r2 := tot_le_mul 3 ws_le rest
  have r4 := tot_le_mul 1 wt_le rest
  have r10 := tot_le_mul 1 crewLogged_le rest
  have r11 := tot_le_mul 1 crewLogged_le_crewC rest
  have z1 := memberExitsOf_succ h3.recTags
  have z2 := capDone_succ (fun q hq => h3.tags q (List.mem_cons_of_mem _ hq))
  revert h1 h3
  obtain ⟨name, counter, loc, cap, grp⟩ := p
  cases loc <;>
    simp only [procStep, joinPear, Proc.goto, loopNext] at hs <;>
    (try split at hs) <;> (try split at hs) <;>
    simp only [Option.some.injEq, Prod.mk.injEq, reduceCtorEq] at hs <;>
    (try obtain ⟨rfl, rfl⟩ := hs) <;>
    intro h1 h3 <;>
    (have hf := h1.file) <;>
    (have hm := h1.mutex) <;>
    (have hE := h3.exitNonneg) <;>
    (have hQ := h3.permits) <;>
    (have hS := h3.sailing) <;>
    (have hT := h3.last) <;>
    (have hX := h3.exits) <;>
    (have hcp := h1.cap _ (List.mem_cons_self _ _)) <;>
    (have hip := h3.idx _ (List.mem_cons_self _ _)) <;>
    (have hGp := h3.tags _ (List.mem_cons_self _ _)) <;>
    clear h1 h3 <;>
    (try simp only [tot_cons, capOk, idxOk, grpOk, tagged,
      crewA, crewC, crewD, crewLogged, crewPoster, crewX, wq, ws, wt, wd,
      capDone, preBoard, holdsFile, holdsMutex,
      setQueue_exitCounter, notePost_exitCounter, setPierCounter_hackerQueue, notePost_hackerQueue, setPierCounter_serfQueue, notePost_serfQueue,
      setPierCounter_exitCounter, printAction_hackerQueue, printAction_serfQueue,
      printAction_exitCounter, setQueue_sailingDone, notePost_sailingDone, setPierCounter_sailingDone,
      printAction_sailingDone, setQueue_captainLast, notePost_captainLast, setPierCounter_captainLast,
      printAction_captainLast, setQueue_groups, notePost_groups, setPierCounter_groups, printAction_groups,
      setQueue_out, notePost_out, setPierCounter_out, printAction_out,
      memberExitsOf, countAction, List.countP_append, List.countP_cons, List.countP_nil,
      ↓reduceIte, Bool.false_eq_true, Bool.not_eq_true, reduceCtorEq, decide_False, decide_True,
      false_and, true_and, and_true, and_false, ite_true, ite_false, if_true, if_false,
      true_implies, false_implies]
      at hf hm hE hQ hS hT hX r1 r2 r4 r10 r11 z1 z2 hcp hip hGp ⊢) <;>
    (try (have hg2 := hGp.2; clear hGp)) <;>
    (try simp only [Bool.not_eq_true] at *) <;>
    (try subst_vars) <;>
    (try simp only [↓reduceIte, Bool.false_eq_true, and_self, and_true, true_and,
      decide_True, decide_False] at *) <;>
    (try omega) <;>
    (try (split_ifs at * <;> omega))

set_option maxHeartbeats 4000000 in
theorem inv3_B {a : Arguments} {sh sh' : Shared} {p p' : Proc} {rest : List Proc}
    (h1 : Inv1 sh (p :: rest)) (h3 : Inv3 sh (p :: rest))
    (hs : procStep a sh p = some (sh', p')) :
    countAction sh'.out .boards + tot preBoard (p' :: rest) = sh'.groups := by
  have r6 := tot_le_mul 1 preBoard_le rest
  revert h1 h3
  obtain ⟨name, counter, loc, cap, grp⟩ := p
  cases loc <;>
    simp only [procStep, joinPear, Proc.goto, loopNext] at hs <;>
    (try split at hs) <;> (try split at hs) <;>
    simp only [Option.some.injEq, Prod.mk.injEq, reduceCtorEq] at hs <;>
    (try obtain ⟨rfl, rfl⟩ := hs) <;>
    intro h1 h3 <;>
    (have hm := h1.mutex) <;>
    (have hB := h3.boards) <;>
    (have hcp := h1.cap _ (List.mem_cons_self _ _)) <;>
    (have hip := h3.idx _ (List.mem_cons_self _ _)) <;>
    clear h1 h3 <;>
    (try simp only [tot_cons, capOk, idxOk, grpOk, tagged,
      crewA, crewC, crewD, crewLogged, crewPoster, crewX, wq, ws, wt, wd,
      capDone, preBoard, holdsFile, holdsMutex,
      setQueue_exitCounter, notePost_exitCounter, setPierCounter_hackerQueue, notePost_hackerQueue, setPierCounter_serfQueue, notePost_serfQueue,
      setPierCounter_exitCounter, printAction_hackerQueue, printAction_serfQueue,
      printAction_exitCounter, setQueue_sailingDone, notePost_sailingDone, setPierCounter_sailingDone,
      printAction_sailingDone, setQueue_captainLast, notePost_captainLast, setPierCounter_captainLast,
      printAction_captainLast, setQueue_groups, notePost_groups, setPierCounter_groups, printAction_groups,
      setQueue_out, notePost_out, setPierCounter_out, printAction_out,
      memberExitsOf, countAction, List.countP_append, List.countP_cons, List.countP_nil,
      ↓reduceIte, Bool.false_eq_true, Bool.not_eq_true, reduceCtorEq, decide_False, decide_True,
      false_and, true_and, and_true, and_false, ite_true, ite_false, if_true, if_false,
      true_implies, false_implies]
      at hm hB r6 hcp hip ⊢) <;>
    (try (have hg2 := hGp.2; clear hGp)) <;>
    (try simp only [Bool.not_eq_true] at *) <;>
    (try subst_vars) <;>
    (try simp only [↓reduceIte, Bool.false_eq_true, and_self, and_true, true_and,
      decide_True, decide_False] at *) <;>
    (try omega) <;>
    (try (split_ifs at * <;> omega))

theorem capLive_le (q : Proc) : capLive q ≤ 1 * holdsMutex q := by
  obtain ⟨n, c, loc, cap, g⟩ := q
  cases loc <;> simp [capLive, holdsMutex]

set_option maxHeartbeats 4000000 in
theorem inv3_U {a : Arguments} {sh sh' : Shared} {p p' : Proc} {rest : List Proc}
    (h1 : Inv1 sh (p :: rest)) (h3 : Inv3 sh (p :: rest))
    (hs : procStep a sh p = some (sh', p')) :
    tot (capDone sh'.groups) (p' :: rest) + tot capLive (p' :: rest) ≤ 1 := by
  have r12 := tot_le_mul 1 capLive_le rest
  have z2 := capDone_succ (fun q hq => h3.tags q (List.mem_cons_of_mem _ hq))
  revert h1 h3
  obtain ⟨name, counter, loc, cap, grp⟩ := p
  cases loc <;>
    simp only [procStep, joinPear, Proc.goto, loopNext] at hs <;>
    (try split at hs) <;> (try split at hs) <;>
    simp only [Option.some.injEq, Prod.mk.injEq, reduceCtorEq] at hs <;>
    (try obtain ⟨rfl, rfl⟩ := hs) <;>
    intro h1 h3 <;>
    (have hm := h1.mutex) <;>
    (have hU := h3.single) <;>
    (have hcp := h1.cap _ (List.mem_cons_self _ _)) <;>
    (have hip := h3.idx _ (List.mem_cons_self _ _)) <;>
    (have hGp := h3.tags _ (List.mem_cons_self _ _)) <;>
    clear h1 h3 <;>
    (try simp only [tot_cons, capOk, idxOk, grpOk, tagged,
      crewA, crewC, crewD, crewLogged, crewPoster, crewX, wq, ws, wt, wd,
      capDone, preBoard, capLive, holdsFile, holdsMutex,
      setQueue_exitCounter, notePost_exitCounter, setPierCounter_hackerQueue, notePost_hackerQueue, setPierCounter_serfQueue, notePost_serfQueue,
      setPierCounter_exitCounter, printAction_hackerQueue, printAction_serfQueue,
      printAction_exitCounter, setQueue_sailingDone, notePost_sailingDone, setPierCounter_sailingDone,
      printAction_sailingDone, setQueue_captainLast, notePost_captainLast, setPierCounter_captainLast,
      printAction_captainLast, setQueue_groups, notePost_groups, setPierCounter_groups, printAction_groups,
      setQueue_out, notePost_out, setPierCounter_out, printAction_out,
      memberExitsOf, countAction, List.countP_append, List.countP_cons, List.countP_nil,
      ↓reduceIte, Bool.false_eq_true, Bool.not_eq_true, reduceCtorEq, decide_False, decide_True,
      false_and, true_and, and_true, and_false, ite_true, ite_false, if_true, if_false,
      true_implies, false_implies]
      at hm hU r12 z2 hcp hip hGp ⊢) <;>
    (try (have hg2 := hGp.2; clear hGp)) <;>
    (try simp only [Bool.not_eq_true] at *) <;>
    (try subst_vars) <;>
    (try simp only [↓reduceIte, Bool.false_eq_true, and_self, and_true, true_and,
      decide_True, decide_False] at *) <;>
    (try omega) <;>
    (try (split_ifs at * <;> omega))

theorem inv3_proc {a : Arguments} {sh sh' : Shared} {p p' : Proc} {rest : List Proc}
    (h1 : Inv1 sh (p :: rest)) (h3 : Inv3 sh (p :: rest))
    (hs : procStep a sh p = some (sh', p')) : Inv3 sh' (p' :: rest) :=
  ⟨inv3_idx h3 hs, inv3_E h1 h3 hs, inv3_Q h1 h3 hs, inv3_S h1 h3 hs, inv3_T h1 h3 hs,
   inv3_D h1 h3 hs, inv3_G h1 h3 hs, inv3_R h3 hs, inv3_X h1 h3 hs, inv3_B h1 h3 hs,
   inv3_U h1 h3 hs⟩
theorem tot_perm (f : Proc → Nat) {l l' : List Proc} (h : l.Perm l') : tot f l = tot f l' := by
  unfold tot
  exact (h.map f).sum_eq

theorem inv1_perm {sh : Shared} {l l' : List Proc} (hp : l.Perm l') (h : Inv1 sh l) :
    Inv1 sh l' := by
  obtain ⟨a, b, c⟩ := h
  have e := fun f => tot_perm f hp
  exact ⟨by rw [← e]; exact a, by rw [← e]; exact b, fun q hq => c q (hp.mem_iff.2 hq)⟩

theorem inv3_perm {sh : Shared} {l l' : List Proc} (hp : l.Perm l') (h : Inv3 sh l) :
    Inv3 sh l' := by
  obtain ⟨a, b, c, d, e, f, g, h, i, j, k⟩ := h
  have t := fun f => tot_perm f hp
  exact ⟨fun q hq => a q (hp.mem_iff.2 hq), b, by rw [← t, ← t, ← t]; exact c,
    by rw [← t, ← t]; exact d, by rw [← t, ← t, ← t]; exact e, by rw [← t, ← t]; exact f,
    fun q hq => g q (hp.mem_iff.2 hq), h, by rw [← t, ← t]; exact i, by rw [← t]; exact j,
    by rw [← t, ← t]; exact k⟩

theorem get_split {l : List Proc} {i : Nat} {p : Proc} (h : l.get? i = some p) :
    ∃ pre post, l = pre ++ p :: post ∧ ∀ q, l.set i q = pre ++ q :: post := by
  induction l generalizing i with
  | nil => simp at h
  | cons x xs ih =>
    cases i with
    | zero =>
      simp at h
      subst h
      exact ⟨[], xs, rfl, fun q => rfl⟩
    | succ n =>
      simp at h
      obtain ⟨pre, post, h1, h2⟩ := @ih n (by simpa using h)
      exact ⟨x :: pre, post, by simp [h1], fun q => by simp [h2]⟩

/-- A freshly forked child (at line 328) has weight 0 everywhere. -/
theorem inv1_new {sh : Shared} {l : List Proc} (c : PersonClass) (k : Int) (h : Inv1 sh l) :
    Inv1 sh (⟨c, k, .L328, false, 0⟩ :: l) := by
  obtain ⟨a, b, d⟩ := h
  refine ⟨by simpa [holdsFile] using a, by simpa [holdsMutex] using b, ?_⟩
  intro q hq
  rcases List.mem_cons.1 hq with rfl | hq
  · simp [capOk]
  · exact d q hq

theorem inv3_new {sh : Shared} {l : List Proc} (c : PersonClass) (k : Int) (h : Inv3 sh l) :
    Inv3 sh (⟨c, k, .L328, false, 0⟩ :: l) := by
  obtain ⟨a, b, c, d, e, f, g, h, i, j, k⟩ := h
  refine ⟨?_, b, by simpa [crewA, crewC, wq] using c, by simpa [crewC, ws] using d,
    by simpa [crewD, crewPoster, wt] using e, by simpa [crewX, wd] using f, ?_, h,
    by simpa [crewLogged, capDone] using i, by simpa [preBoard] using j,
    by simpa [capDone, capLive] using k⟩
  · intro q hq
    rcases List.mem_cons.1 hq with rfl | hq
    · simp [idxOk]
    · exact a q hq
  · intro q hq
    rcases List.mem_cons.1 hq with rfl | hq
    · simp [grpOk, tagged]
    · exact g q hq

/-! ## Preservation of the pier-counter invariant -/

theorem transient_le (q : Proc) : transient q ≤ 1 * holdsMutex q := by
  obtain ⟨n, c, loc, cap, g⟩ := q
  cases loc <;> simp [transient, holdsMutex]

theorem pierOk_rest {sh sh' : Shared} {q : Proc} (h : pierOk sh q)
    (hc : holdsMutex q = 0 ∨ (sh'.hackerPierCount = sh.hackerPierCount ∧
      sh'.serfPierCount = sh.serfPierCount)) : pierOk sh' q := by
  obtain ⟨n, c, loc, cap, g⟩ := q
  rcases hc with hc | ⟨e1, e2⟩
  · cases loc <;> simp [holdsMutex] at hc <;> simpa [pierOk] using h
  · cases n <;> cases loc <;> simpa [pierOk, Shared.pierCounter, e1, e2] using h

set_option maxHeartbeats 4000000 in
theorem inv2_stable {a : Arguments} {sh sh' : Shared} {p p' : Proc} {rest : List Proc}
    (h1 : Inv1 sh (p :: rest)) (h2 : Inv2 sh (p :: rest))
    (hs : procStep a sh p = some (sh', p')) :
    tot transient (p' :: rest) = 0 → Stable sh'.hackerPierCount sh'.serfPierCount := by
  have r1 := tot_le_mul 1 transient_le rest
  revert h1 h2
  obtain ⟨name, counter, loc, cap, grp⟩ := p
  cases name <;> cases loc <;>
    simp only [procStep, joinPear, Proc.goto, loopNext] at hs <;>
    (try split at hs) <;> (try split at hs) <;>
    simp only [Option.some.injEq, Prod.mk.injEq, reduceCtorEq] at hs <;>
    (try obtain ⟨rfl, rfl⟩ := hs) <;>
    intro h1 h2 <;>
    (have hm := h1.mutex) <;>
    (have hst := h2.stable) <;>
    (have hpp := h2.pier _ (List.mem_cons_self _ _)) <;>
    (have hcp := h1.cap _ (List.mem_cons_self _ _)) <;>
    clear h1 h2 <;>
    (simp only [capOk] at hcp) <;>
    (try simp only [Bool.not_eq_true] at *) <;>
    (try subst_vars) <;>
    (try simp only [tot_cons, pierOk, Stable, transient, holdsMutex, Shared.pierCounter,
      Shared.setPierCounter, Shared.setQueue, Shared.notePost, printAction, PersonClass.other,
      ↓reduceIte, Bool.false_eq_true] at hm hst hpp ⊢) <;>
    (try simp only [Shared.pierCounter, PersonClass.other] at *) <;>
    omega

theorem tot_pos_mem {f : Proc → Nat} {l : List Proc} (h : tot f l ≠ 0) :
    ∃ q ∈ l, f q ≠ 0 := by
  by_contra hc
  push_neg at hc
  apply h
  clear h
  induction l with
  | nil => simp
  | cons x xs ih =>
    simp only [tot_cons]
    have h1 := hc x (List.mem_cons_self _ _)
    have h2 := ih (fun q hq => hc q (List.mem_cons_of_mem _ hq))
    omega

theorem holdsMutex_zero_of_tot (l : List Proc) (h : tot holdsMutex l = 0) :
    ∀ q ∈ l, holdsMutex q = 0 := tot_zero_mem h

theorem inv2_sum_le {sh : Shared} {l : List Proc} (h2 : Inv2 sh l) :
    0 ≤ sh.hackerPierCount ∧ 0 ≤ sh.serfPierCount ∧
      sh.hackerPierCount + sh.serfPierCount ≤ 5 := by
  by_cases ht : tot transient l = 0
  · have := h2.stable ht
    unfold Stable at this
    omega
  · obtain ⟨q, hq, hne⟩ := tot_pos_mem ht
    have hp := h2.pier q hq
    obtain ⟨n, c, loc, cap, g⟩ := q
    cases n <;> cases loc <;> simp only [transient, ne_eq, not_true_eq_false] at hne <;>
      simp only [pierOk, Stable, Shared.pierCounter, PersonClass.other] at hp <;> omega

set_option maxHeartbeats 4000000 in
theorem inv2_pier {a : Arguments} {sh sh' : Shared} {p p' : Proc} {rest : List Proc}
    (h1 : Inv1 sh (p :: rest)) (h2 : Inv2 sh (p :: rest))
    (hs : procStep a sh p = some (sh', p')) :
    ∀ q ∈ p' :: rest, pierOk sh' q := by
  have r1 := tot_le_mul 1 transient_le rest
  have hsum := inv2_sum_le h2
  have hpr : ∀ q ∈ rest, pierOk sh q := fun q hq => h2.pier q (List.mem_cons_of_mem _ hq)
  revert h1 h2
  obtain ⟨name, counter, loc, cap, grp⟩ := p
  cases name <;> cases loc <;>
    simp only [procStep, joinPear, Proc.goto, loopNext] at hs <;>
    (try split at hs) <;> (try split at hs) <;>
    simp only [Option.some.injEq, Prod.mk.injEq, reduceCtorEq] at hs <;>
    (try obtain ⟨rfl, rfl⟩ := hs) <;>
    intro h1 h2 <;>
    (have hm := h1.mutex) <;>
    (have hst := h2.stable) <;>
    (have hpp := h2.pier _ (List.mem_cons_self _ _)) <;>
    (have hcp := h1.cap _ (List.mem_cons_self _ _)) <;>
    clear h1 h2 <;>
    (simp only [capOk] at hcp) <;>
    (try simp only [Bool.not_eq_true] at *) <;>
    (try subst_vars) <;>
    refine List.forall_mem_cons.2 ⟨?_, fun q hq => pierOk_rest (hpr q hq) ?_⟩ <;>
    first
    | exact Or.inr ⟨rfl, rfl⟩
    | exact Or.inl (holdsMutex_zero_of_tot rest
        (by simp only [tot_cons, holdsMutex] at hm; omega) _ ‹_›)
    | ((try simp only [tot_cons, pierOk, Stable, transient, holdsMutex, Shared.pierCounter,
          Shared.setPierCounter, Shared.setQueue, Shared.notePost, printAction, PersonClass.other,
          ↓reduceIte, Bool.false_eq_true, and_self, or_true, true_and] at hm hst hpp ⊢)
       (try simp only [Shared.pierCounter, PersonClass.other] at *)
       (try omega))

theorem inv2_proc {a : Arguments} {sh sh' : Shared} {p p' : Proc} {rest : List Proc}
    (h1 : Inv1 sh (p :: rest)) (h2 : Inv2 sh (p :: rest))
    (hs : procStep a sh p = some (sh', p')) : Inv2 sh' (p' :: rest) :=
  ⟨inv2_stable h1 h2 hs, inv2_pier h1 h2 hs⟩

theorem inv2_perm {sh : Shared} {l l' : List Proc} (hp : l.Perm l')
    (h : Inv2 sh l) : Inv2 sh l' := by
  obtain ⟨x, y⟩ := h
  have t := fun f => tot_perm f hp
  exact ⟨by rw [← t]; exact x, fun q hq => y q (hp.mem_iff.2 hq)⟩

theorem inv2_new {sh : Shared} {l : List Proc} (c : PersonClass) (k : Int)
    (h : Inv2 sh l) : Inv2 sh (⟨c, k, .L328, false, 0⟩ :: l) := by
  obtain ⟨x, y⟩ := h
  refine ⟨by simpa [transient] using x, ?_⟩
  intro q hq
  rcases List.mem_cons.1 hq with rfl | hq
  · simp [pierOk]
  · exact y q hq

/-! ## Preservation of the per-class accounting -/

theorem adj_le (k : PersonClass) (q : Proc) : adj k q ≤ 4 * holdsMutex q := by
  obtain ⟨n, c, loc, cap, g⟩ := q
  cases loc <;> simp only [adj, holdsMutex] <;> (try split_ifs) <;> omega

theorem wm_le (q : Proc) : wm q ≤ 4 * holdsMutex q := by
  obtain ⟨n, c, loc, cap, g⟩ := q
  cases loc <;> simp only [wm, holdsMutex] <;> omega

set_option maxHeartbeats 4000000 in
theorem inv4_hack {a : Arguments} {sh sh' : Shared} {p p' : Proc} {rest : List Proc}
    (h1 : Inv1 sh (p :: rest)) (h2 : Inv2 sh (p :: rest)) (h3 : Inv3 sh (p :: rest))
    (h4 : Inv4 sh (p :: rest))
    (hs : procStep a sh p = some (sh', p')) :
    ((tot (admitted .HACK) (p' :: rest) + tot (adj .HACK) (p' :: rest) : Nat) : Int) = sh'.hackerPierCount + ((sh'.hackerQueue + tot (passed .HACK) (p' :: rest) : Nat) : Int) := by
  have r1 := tot_le_mul 4 (adj_le .HACK) rest
  have r2 := tot_le_mul 4 (adj_le .SERF) rest
  have r3 := tot_le_mul 4 wm_le rest
  revert h1 h2 h3 h4
  obtain ⟨name, counter, loc, cap, grp⟩ := p
  cases name <;> cases loc <;>
    simp only [procStep, joinPear, Proc.goto, loopNext] at hs <;>
    (try split at hs) <;> (try split at hs) <;>
    simp only [Option.some.injEq, Prod.mk.injEq, reduceCtorEq] at hs <;>
    (try obtain ⟨rfl, rfl⟩ := hs) <;>
    intro h1 h2 h3 h4 <;>
    (have hm := h1.mutex) <;>
    (have hcp := h1.cap _ (List.mem_cons_self _ _)) <;>
    (have hip := h3.idx _ (List.mem_cons_self _ _)) <;>
    (have hpp := h2.pier _ (List.mem_cons_self _ _)) <;>
    (have hx := h4.hack) <;>
    clear h1 h2 h3 h4 <;>
    (simp only [capOk] at hcp) <;>
    (try simp only [Bool.not_eq_true] at *) <;>
    (try subst_vars) <;>
    (try simp only [tot_cons, idxOk, pierOk, Stable, admitted, passed, adj, wm, holdsMutex,
      Shared.pierCounter, Shared.queue, Shared.setPierCounter, Shared.setQueue, Shared.notePost, printAction,
      PersonClass.other, ↓reduceIte, Bool.false_eq_true, reduceCtorEq] at hm hip hpp hx ⊢) <;>
    (try simp only [Shared.pierCounter, Shared.queue, PersonClass.other] at *) <;>
    omega

set_option maxHeartbeats 4000000 in
theorem inv4_serf {a : Arguments} {sh sh' : Shared} {p p' : Proc} {rest : List Proc}
    (h1 : Inv1 sh (p :: rest)) (h2 : Inv2 sh (p :: rest)) (h3 : Inv3 sh (p :: rest))
    (h4 : Inv4 sh (p :: rest))
    (hs : procStep a sh p = some (sh', p')) :
    ((tot (admitted .SERF) (p' :: rest) + tot (adj .SERF) (p' :: rest) : Nat) : Int) = sh'.serfPierCount + ((sh'.serfQueue + tot (passed .SERF) (p' :: rest) : Nat) : Int) := by
  have r1 := tot_le_mul 4 (adj_le .HACK) rest
  have r2 := tot_le_mul 4 (adj_le .SERF) rest
  have r3 := tot_le_mul 4 wm_le rest
  revert h1 h2 h3 h4
  obtain ⟨name, counter, loc, cap, grp⟩ := p
  cases name <;> cases loc <;>
    simp only [procStep, joinPear, Proc.goto, loopNext] at hs <;>
    (try split at hs) <;> (try split at hs) <;>
    simp only [Option.some.injEq, Prod.mk.injEq, reduceCtorEq] at hs <;>
    (try obtain ⟨rfl, rfl⟩ := hs) <;>
    intro h1 h2 h3 h4 <;>
    (have hm := h1.mutex) <;>
    (have hcp := h1.cap _ (List.mem_cons_self _ _)) <;>
    (have hip := h3.idx _ (List.mem_cons_self _ _)) <;>
    (have hpp := h2.pier _ (List.mem_cons_self _ _)) <;>
    (have hx := h4.serf) <;>
    clear h1 h2 h3 h4 <;>
    (simp only [capOk] at hcp) <;>
    (try simp only [Bool.not_eq_true] at *) <;>
    (try subst_vars) <;>
    (try simp only [tot_cons, idxOk, pierOk, Stable, admitted, passed, adj, wm, holdsMutex,
      Shared.pierCounter, Shared.queue, Shared.setPierCounter, Shared.setQueue, Shared.notePost, printAction,
      PersonClass.other, ↓reduceIte, Bool.false_eq_true, reduceCtorEq] at hm hip hpp hx ⊢) <;>
    (try simp only [Shared.pierCounter, Shared.queue, PersonClass.other] at *) <;>
    omega

set_option maxHeartbeats 4000000 in
theorem inv4_hackEven {a : Arguments} {sh sh' : Shared} {p p' : Proc} {rest : List Proc}
    (h1 : Inv1 sh (p :: rest)) (h2 : Inv2 sh (p :: rest)) (h3 : Inv3 sh (p :: rest))
    (h4 : Inv4 sh (p :: rest))
    (hs : procStep a sh p = some (sh', p')) :
    (sh'.hackerQueue + tot (passed .HACK) (p' :: rest) + tot (adj .HACK) (p' :: rest)) % 2 = 0 := by
  have r1 := tot_le_mul 4 (adj_le .HACK) rest
  have r2 := tot_le_mul 4 (adj_le .SERF) rest
  have r3 := tot_le_mul 4 wm_le rest
  revert h1 h2 h3 h4
  obtain ⟨name, counter, loc, cap, grp⟩ := p
  cases name <;> cases loc <;>
    simp only [procStep, joinPear, Proc.goto, loopNext] at hs <;>
    (try split at hs) <;> (try split at hs) <;>
    simp only [Option.some.injEq, Prod.mk.injEq, reduceCtorEq] at hs <;>
    (try obtain ⟨rfl, rfl⟩ := hs) <;>
    intro h1 h2 h3 h4 <;>
    (have hm := h1.mutex) <;>
    (have hcp := h1.cap _ (List.mem_cons_self _ _)) <;>
    (have hip := h3.idx _ (List.mem_cons_self _ _)) <;>
    (have hpp := h2.pier _ (List.mem_cons_self _ _)) <;>
    (have hx := h4.hackEven) <;>
    clear h1 h2 h3 h4 <;>
    (simp only [capOk] at hcp) <;>
    (try simp only [Bool.not_eq_true] at *) <;>
    (try subst_vars) <;>
    (try simp only [tot_cons, idxOk, pierOk, Stable, admitted, passed, adj, wm, holdsMutex,
      Shared.pierCounter, Shared.queue, Shared.setPierCounter, Shared.setQueue, Shared.notePost, printAction,
      PersonClass.other, ↓reduceIte, Bool.false_eq_true, reduceCtorEq] at hm hip hpp hx ⊢) <;>
    (try simp only [Shared.pierCounter, Shared.queue, PersonClass.other] at *) <;>
    omega

set_option maxHeartbeats 4000000 in
theorem inv4_serfEven {a : Arguments} {sh sh' : Shared} {p p' : Proc} {rest : List Proc}
    (h1 : Inv1 sh (p :: rest)) (h2 : Inv2 sh (p :: rest)) (h3 : Inv3 sh (p :: rest))
    (h4 : Inv4 sh (p :: rest))
    (hs : procStep a sh p = some (sh', p')) :
    (sh'.serfQueue + tot (passed .SERF) (p' :: rest) + tot (adj .SERF) (p' :: rest)) % 2 = 0 := by
  have r1 := tot_le_mul 4 (adj_le .HACK) rest
  have r2 := tot_le_mul 4 (adj_le .SERF) rest
  have r3 := tot_le_mul 4 wm_le rest
  revert h1 h2 h3 h4
  obtain ⟨name, counter, loc, cap, grp⟩ := p
  cases name <;> cases loc <;>
    simp only [procStep, joinPear, Proc.goto, loopNext] at hs <;>
    (try split at hs) <;> (try split at hs) <;>
    simp only [Option.some.injEq, Prod.mk.injEq, reduceCtorEq] at hs <;>
    (try obtain ⟨rfl, rfl⟩ := hs) <;>
    intro h1 h2 h3 h4 <;>
    (have hm := h1.mutex) <;>
    (have hcp := h1.cap _ (List.mem_cons_self _ _)) <;>
    (have hip := h3.idx _ (List.mem_cons_self _ _)) <;>
    (have hpp := h2.pier _ (List.mem_cons_self _ _)) <;>
    (have hx := h4.serfEven) <;>
    clear h1 h2 h3 h4 <;>
    (simp only [capOk] at hcp) <;>
    (try simp only [Bool.not_eq_true] at *) <;>
    (try subst_vars) <;>
    (try simp only [tot_cons, idxOk, pierOk, Stable, admitted, passed, adj, wm, holdsMutex,
      Shared.pierCounter, Shared.queue, Shared.setPierCounter, Shared.setQueue, Shared.notePost, printAction,
      PersonClass.other, ↓reduceIte, Bool.false_eq_true, reduceCtorEq] at hm hip hpp hx ⊢) <;>
    (try simp only [Shared.pierCounter, Shared.queue, PersonClass.other] at *) <;>
    omega

set_option maxHeartbeats 4000000 in
theorem inv4_groups {a : Arguments} {sh sh' : Shared} {p p' : Proc} {rest : List Proc}
    (h1 : Inv1 sh (p :: rest)) (h2 : Inv2 sh (p :: rest)) (h3 : Inv3 sh (p :: rest))
    (h4 : Inv4 sh (p :: rest))
    (hs : procStep a sh p = some (sh', p')) :
    (sh'.hackerQueue + tot (passed .HACK) (p' :: rest) + sh'.serfQueue + tot (passed .SERF) (p' :: rest) + 3 * tot wm (p' :: rest)) % 4 = 0 := by
  have r1 := tot_le_mul 4 (adj_le .HACK) rest
  have r2 := tot_le_mul 4 (adj_le .SERF) rest
  have r3 := tot_le_mul 4 wm_le rest
  revert h1 h2 h3 h4
  obtain ⟨name, counter, loc, cap, grp⟩ := p
  cases name <;> cases loc <;>
    simp only [procStep, joinPear, Proc.goto, loopNext] at hs <;>
    (try split at hs) <;> (try split at hs) <;>
    simp only [Option.some.injEq, Prod.mk.injEq, reduceCtorEq] at hs <;>
    (try obtain ⟨rfl, rfl⟩ := hs) <;>
    intro h1 h2 h3 h4 <;>
    (have hm := h1.mutex) <;>
    (have hcp := h1.cap _ (List.mem_cons_self _ _)) <;>
    (have hip := h3.idx _ (List.mem_cons_self _ _)) <;>
    (have hpp := h2.pier _ (List.mem_cons_self _ _)) <;>
    (have hx := h4.groups) <;>
    clear h1 h2 h3 h4 <;>
    (simp only [capOk] at hcp) <;>
    (try simp only [Bool.not_eq_true] at *) <;>
    (try subst_vars) <;>
    (try simp only [tot_cons, idxOk, pierOk, Stable, admitted, passed, adj, wm, holdsMutex,
      Shared.pierCounter, Shared.queue, Shared.setPierCounter, Shared.setQueue, Shared.notePost, printAction,
      PersonClass.other, ↓reduceIte, Bool.false_eq_true, reduceCtorEq] at hm hip hpp hx ⊢) <;>
    (try simp only [Shared.pierCounter, Shared.queue, PersonClass.other] at *) <;>
    omega

theorem inv4_proc {a : Arguments} {sh sh' : Shared} {p p' : Proc} {rest : List Proc}
    (h1 : Inv1 sh (p :: rest)) (h2 : Inv2 sh (p :: rest)) (h3 : Inv3 sh (p :: rest))
    (h4 : Inv4 sh (p :: rest))
    (hs : procStep a sh p = some (sh', p')) : Inv4 sh' (p' :: rest) :=
  ⟨inv4_hack h1 h2 h3 h4 hs, inv4_serf h1 h2 h3 h4 hs, inv4_hackEven h1 h2 h3 h4 hs,
   inv4_serfEven h1 h2 h3 h4 hs, inv4_groups h1 h2 h3 h4 hs⟩

theorem inv4_perm {sh : Shared} {l l' : List Proc} (hp : l.Perm l') (h : Inv4 sh l) :
    Inv4 sh l' := by
  obtain ⟨a, b, c, d, e⟩ := h
  have t := fun f => tot_perm f hp
  exact ⟨by rw [← t, ← t, ← t]; exact a, by rw [← t, ← t, ← t]; exact b,
    by rw [← t, ← t]; exact c, by rw [← t, ← t]; exact d, by rw [← t, ← t, ← t]; exact e⟩

theorem inv4_new {sh : Shared} {l : List Proc} (c : PersonClass) (k : Int) (h : Inv4 sh l) :
    Inv4 sh (⟨c, k, .L328, false, 0⟩ :: l) := by
  obtain ⟨a, b, c, d, e⟩ := h
  exact ⟨by simpa [admitted, adj, passed] using a, by simpa [admitted, adj, passed] using b,
    by simpa [adj, passed] using c, by simpa [adj, passed] using d,
    by simpa [passed, wm] using e⟩

/-! ## Generators, and the invariants of the whole system -/

theorem procStep_name {a : Arguments} {sh sh' : Shared} {p p' : Proc}
    (hs : procStep a sh p = some (sh', p')) : p'.name = p.name ∧ p'.counter = p.counter := by
  obtain ⟨name, counter, loc, cap, grp⟩ := p
  cases loc <;>
    simp only [procStep, joinPear, Proc.goto, loopNext] at hs <;>
    (try split at hs) <;> (try split at hs) <;>
    simp only [Option.some.injEq, Prod.mk.injEq, reduceCtorEq] at hs <;>
    (try obtain ⟨rfl, rfl⟩ := hs) <;>
    exact ⟨rfl, rfl⟩

theorem idsOf_mid (k : PersonClass) (pre post : List Proc) {p p' : Proc}
    (h : p'.name = p.name ∧ p'.counter = p.counter) :
    idsOf k (pre ++ p' :: post) = idsOf k (pre ++ p :: post) := by
  simp [idsOf, List.filter_append, List.filter_cons, h.1, h.2]
  split <;> simp [h.2]

theorem idsOf_append_same (k : PersonClass) (l : List Proc) (c : Int) (loc : Loc) (b : Bool)
    (g : Nat) : idsOf k (l ++ [⟨k, c, loc, b, g⟩]) = idsOf k l ++ [c] := by
  simp [idsOf, List.filter_append]

theorem idsOf_append_other (k j : PersonClass) (h : j ≠ k) (l : List Proc) (c : Int)
    (loc : Loc) (b : Bool) (g : Nat) : idsOf k (l ++ [⟨j, c, loc, b, g⟩]) = idsOf k l := by
  simp [idsOf, List.filter_append, h]

theorem firstIds_succ {n : Int} (h : 0 ≤ n) : firstIds (n + 1) = firstIds n ++ [n + 1] := by
  obtain ⟨m, rfl⟩ := Int.eq_ofNat_of_zero_le h
  have : ((m : Int) + 1).toNat = m + 1 := by omega
  simp [firstIds, this, List.range_succ]

set_option maxHeartbeats 4000000 in
theorem inv5_starts {a : Arguments} {sh sh' : Shared} {p p' : Proc} {rest : List Proc}
    (h : countAction sh.out .starts = tot started (p :: rest))
    (hs : procStep a sh p = some (sh', p')) :
    countAction sh'.out .starts = tot started (p' :: rest) := by
  revert h
  obtain ⟨name, counter, loc, cap, grp⟩ := p
  cases loc <;>
    simp only [procStep, joinPear, Proc.goto, loopNext] at hs <;>
    (try split at hs) <;> (try split at hs) <;>
    simp only [Option.some.injEq, Prod.mk.injEq, reduceCtorEq] at hs <;>
    (try obtain ⟨rfl, rfl⟩ := hs) <;>
    intro h <;>
    (try simp only [tot_cons, started, countAction, setQueue_out, notePost_out, setPierCounter_out,
      printAction_out, List.countP_append, List.countP_cons, List.countP_nil,
      reduceCtorEq, decide_False, decide_True, ↓reduceIte, Bool.false_eq_true] at h ⊢) <;>
    omega

@[simp] theorem setGen_sh (s : State) (c : PersonClass) (g : Gen) : (s.setGen c g).sh = s.sh := by
  cases c <;> rfl

@[simp] theorem setGen_procs (s : State) (c : PersonClass) (g : Gen) :
    (s.setGen c g).procs = s.procs := by
  cases c <;> rfl

theorem inv_init (a : Arguments) : Inv a initState := by
  refine ⟨⟨rfl, rfl, by simp [initState]⟩, ⟨?_, by simp [initState]⟩, ?_, ?_, ?_⟩
  · intro _
    simp [initState, Stable]
  · refine ⟨by simp [initState], by simp [initState], by simp [initState],
      by simp [initState], ?_, by simp [initState], by simp [initState], by simp [initState],
      by simp [initState, memberExitsOf], by simp [initState, countAction], by simp [initState]⟩
    simp [initState]
  · exact ⟨by simp [initState], by simp [initState], by simp [initState], by simp [initState],
      by simp [initState]⟩
  · refine ⟨⟨rfl, by simp [initState], by simp [initState], by simp [initState, idsOf, firstIds]⟩,
      ⟨rfl, by simp [initState], by simp [initState], by simp [initState, idsOf, firstIds]⟩,
      by simp [initState, countAction]⟩

theorem inv_proc {a : Arguments} {s : State} {i : Nat} {p q : Proc} {sh : Shared}
    (h : Inv a s) (hp : s.procs.get? i = some p) (hs : procStep a s.sh p = some (sh, q)) :
    Inv a { s with sh := sh, procs := s.procs.set i q } := by
  obtain ⟨pre, post, e1, e2⟩ := get_split hp
  have pm : ∀ x : Proc, (pre ++ x :: post).Perm (x :: (pre ++ post)) := fun x => List.perm_middle
  obtain ⟨h1, h2, h3, h4, h5⟩ := h
  rw [e1] at h1 h2 h3 h4
  have k1 := inv1_perm (pm p) h1
  have k2 := inv2_perm (pm p) h2
  have k3 := inv3_perm (pm p) h3
  have k4 := inv4_perm (pm p) h4
  have hn := procStep_name hs
  refine ⟨?_, ?_, ?_, ?_, ?_⟩
  · simpa [e2] using inv1_perm (pm q).symm (inv1_proc k1 hs)
  · simpa [e2] using inv2_perm (pm q).symm (inv2_proc k1 k2 hs)
  · simpa [e2] using inv3_perm (pm q).symm (inv3_proc k1 k3 hs)
  · simpa [e2] using inv4_perm (pm q).symm (inv4_proc k1 k2 k3 k4 hs)
  · obtain ⟨g1, g2, g3⟩ := h5
    refine ⟨⟨g1.same, g1.nonneg, g1.bound, ?_⟩, ⟨g2.same, g2.nonneg, g2.bound, ?_⟩, ?_⟩
    · have := g1.ids
      simp only [e2]
      rw [idsOf_mid _ _ _ hn, ← e1]
      exact this
    · have := g2.ids
      simp only [e2]
      rw [idsOf_mid _ _ _ hn, ← e1]
      exact this
    · simp only [e2]
      rw [tot_perm started (pm q)]
      apply inv5_starts _ hs
      rw [← tot_perm started (pm p), ← e1]
      exact g3

theorem inv_fork {a : Arguments} {s : State} (c : PersonClass) (h : Inv a s)
    (hc : (s.gen c).canFork a = true) :
    Inv a (({ s with procs := s.procs ++ [Proc.mk c ((s.gen c).counter + 1) .L328 false 0] }).setGen c
      { s.gen c with i := (s.gen c).i + 1, counter := (s.gen c).counter + 1 }) := by
  obtain ⟨h1, h2, h3, h4, h5⟩ := h
  have pm : (s.procs ++ [Proc.mk c ((s.gen c).counter + 1) .L328 false 0]).Perm
      (Proc.mk c ((s.gen c).counter + 1) .L328 false 0 :: s.procs) :=
    List.perm_append_singleton _ _
  simp only [Gen.canFork, Bool.and_eq_true, Bool.not_eq_true', decide_eq_true_eq] at hc
  refine ⟨?_, ?_, ?_, ?_, ?_⟩
  · simpa using inv1_perm pm.symm (inv1_new c _ h1)
  · simpa using inv2_perm pm.symm (inv2_new c _ h2)
  · simpa using inv3_perm pm.symm (inv3_new c _ h3)
  · simpa using inv4_perm pm.symm (inv4_new c _ h4)
  · obtain ⟨g1, g2, g3⟩ := h5
    have hst : countAction s.sh.out .starts
        = tot started (s.procs ++ [Proc.mk c ((s.gen c).counter + 1) .L328 false 0]) := by
      rw [tot_append]
      simpa [started] using g3
    cases c
    · refine ⟨⟨?_, ?_, ?_, ?_⟩, ⟨g2.same, g2.nonneg, g2.bound, ?_⟩, hst⟩
      · simp only [State.setGen, State.gen]; rw [g1.same]
      · simp only [State.setGen, State.gen]; have := g1.nonneg; omega
      · simp only [State.setGen, State.gen] at hc ⊢
        intro _
        have := g1.same
        omega
      · simp only [State.setGen, State.gen]
        rw [idsOf_append_same, firstIds_succ g1.nonneg, g1.ids]
      · simp only [State.setGen, State.gen]
        rw [idsOf_append_other _ _ (by decide), g2.ids]
    · refine ⟨⟨g1.same, g1.nonneg, g1.bound, ?_⟩, ⟨?_, ?_, ?_, ?_⟩, hst⟩
      · simp only [State.setGen, State.gen]
        rw [idsOf_append_other _ _ (by decide), g1.ids]
      · simp only [State.setGen, State.gen]; rw [g2.same]
      · simp only [State.setGen, State.gen]; have := g2.nonneg; omega
      · simp only [State.setGen, State.gen] at hc ⊢
        intro _
        have := g2.same
        omega
      · simp only [State.setGen, State.gen]
        rw [idsOf_append_same, firstIds_succ g2.nonneg, g2.ids]

theorem inv_forkFails {a : Arguments} {s : State} (c : PersonClass) (h : Inv a s) :
    Inv a (s.setGen c { s.gen c with failed := true }) := by
  obtain ⟨h1, h2, h3, h4, g1, g2, g3⟩ := h
  refine ⟨by simpa using h1, by simpa using h2, by simpa using h3, by simpa using h4, ?_⟩
  cases c
  · exact ⟨⟨g1.same, g1.nonneg, g1.bound, g1.ids⟩, g2, g3⟩
  · exact ⟨g1, ⟨g2.same, g2.nonneg, g2.bound, g2.ids⟩, g3⟩

theorem step_fork {a : Arguments} {s t : State} {c : PersonClass}
    (hs : step a s (.fork c) = some t) :
    (s.gen c).canFork a = true ∧
    t = ({ s with procs := s.procs ++ [Proc.mk c ((s.gen c).counter + 1) .L328 false 0] }).setGen c
      { s.gen c with i := (s.gen c).i + 1, counter := (s.gen c).counter + 1 } := by
  simp only [step, generate] at hs
  by_cases hc : (s.gen c).canFork a = true
  · simp only [hc, ↓reduceIte, Option.some.injEq] at hs
    exact ⟨hc, hs.symm⟩
  · simp only [hc, Bool.false_eq_true, ↓reduceIte, reduceCtorEq] at hs

theorem step_forkFails {a : Arguments} {s t : State} {c : PersonClass}
    (hs : step a s (.forkFails c) = some t) :
    (s.gen c).canFork a = true ∧ t = s.setGen c { s.gen c with failed := true } := by
  simp only [step, generate] at hs
  by_cases hc : (s.gen c).canFork a = true
  · simp only [hc, ↓reduceIte, Bool.false_eq_true, Option.some.injEq] at hs
    exact ⟨hc, hs.symm⟩
  · simp only [hc, Bool.false_eq_true, ↓reduceIte, reduceCtorEq] at hs

theorem inv_step {a : Arguments} {s t : State} {e : Event} (h : Inv a s)
    (hs : step a s e = some t) : Inv a t := by
  cases e with
  | proc i =>
    simp only [step] at hs
    split at hs
    · exact absurd hs (by simp)
    · rename_i p hp
      split at hs
      · exact absurd hs (by simp)
      · rename_i sh q hq
        simp only [Option.some.injEq] at hs
        subst hs
        exact inv_proc h hp hq
  | fork c =>
    obtain ⟨hc, rfl⟩ := step_fork hs
    exact inv_fork c h hc
  | forkFails c =>
    obtain ⟨-, rfl⟩ := step_forkFails hs
    exact inv_forkFails c h

theorem reachable_inv {a : Arguments} {s : State} (h : Reachable a s) : Inv a s := by
  induction h with
  | init => exact inv_init a
  | step e _ hs ih => exact inv_step ih hs

/-! ## Argument validation -/

theorem ite_err {c : Prop} [Decidable c] {e : Int} {x args : Arguments} {y : Int × Arguments}
    (he : e ≠ 0) (h : (if c then (e, x) else y) = (0, args)) : ¬c ∧ y = (0, args) := by
  by_cases hc : c
  · rw [if_pos hc] at h
    exact absurd (congrArg Prod.fst h) he
  · rw [if_neg hc] at h
    exact ⟨hc, h⟩

theorem processArguments_ok (argv : List String) (z args : Arguments)
    (h : processArguments argv z = (0, args)) : Validated args := by
  unfold processArguments at h
  split at h
  · simp only [ARG_UNEXPECTED_ERR, ARG_RANGE_ERR] at h
    obtain ⟨-, h⟩ := ite_err (by decide) h
    obtain ⟨c1, h⟩ := ite_err (by decide) h
    obtain ⟨-, h⟩ := ite_err (by decide) h
    obtain ⟨c2, h⟩ := ite_err (by decide) h
    obtain ⟨-, h⟩ := ite_err (by decide) h
    obtain ⟨c3, h⟩ := ite_err (by decide) h
    obtain ⟨-, h⟩ := ite_err (by decide) h
    obtain ⟨c4, h⟩ := ite_err (by decide) h
    obtain ⟨-, h⟩ := ite_err (by decide) h
    obtain ⟨c5, h⟩ := ite_err (by decide) h
    obtain ⟨-, h⟩ := ite_err (by decide) h
    obtain ⟨c6, h⟩ := ite_err (by decide) h
    simp only [Prod.mk.injEq, true_and] at h
    subst h
    simp only [Validated]
    omega
  · simp [ARG_COUNT_ERR] at h

theorem readDigits_spec (cs : List Char) (n acc : Nat) :
    (readDigits cs n acc).1 = n + (cs.takeWhile isDigitC).length ∧
    (readDigits cs n acc).2.2 = cs.dropWhile isDigitC := by
  induction cs generalizing n acc with
  | nil => simp [readDigits]
  | cons c cs ih =>
    unfold readDigits
    cases h : digitVal c with
    | none => simp [List.takeWhile, List.dropWhile, isDigitC, h]
    | some d =>
      obtain ⟨h1, h2⟩ := ih (n + 1) (acc * 10 + d)
      simp only [h1, h2, List.takeWhile, List.dropWhile, isDigitC, h, Option.isSome_some,
        List.length_cons, and_true]
      omega

theorem strtoul_end (l : List Char) :
    (strtoul l).2 =
      if ((digitsPart l).takeWhile isDigitC).length = 0 then l
      else (digitsPart l).dropWhile isDigitC := by
  unfold strtoul digitsPart
  simp only []
  generalize (signAndDigits (skipSpaces l)).2 = body
  generalize (signAndDigits (skipSpaces l)).1 = neg
  obtain ⟨h1, h2⟩ := readDigits_spec body 0 0
  rcases hr : readDigits body 0 0 with ⟨k, v, rest⟩
  rw [hr] at h1 h2
  simp only at h1 h2
  cases k with
  | zero =>
    have : (body.takeWhile isDigitC).length = 0 := by omega
    simp [this]
  | succ k =>
    have : (body.takeWhile isDigitC).length ≠ 0 := by omega
    simp only [this, ↓reduceIte, h2]
    split_ifs <;> rfl

theorem digitsPart_nil : digitsPart [] = [] := rfl

theorem strtoul_end_null (l : List Char) :
    endNonNull (strtoul l).2 = false ↔
      (!(digitsPart l).isEmpty && (digitsPart l).all isDigitC) = true ∨ l = [] := by
  rw [strtoul_end]
  by_cases hl : l = []
  · subst hl
    simp [endNonNull, digitsPart_nil]
  · generalize digitsPart l = body
    cases body with
    | nil => simp [endNonNull, hl]
    | cons c cs =>
      by_cases hc : isDigitC c = true
      · simp [endNonNull, List.takeWhile, List.dropWhile, hc, hl, List.dropWhile_eq_nil_iff]
      · simp [endNonNull, List.takeWhile, List.dropWhile, hc, hl]

/-- What `processArguments` accepts: it returns 0 exactly when there are six
arguments, each of them is the decimal text of an integer or is empty, and the
converted values pass the range tests. The empty argument is the only text
accepted that `isDecimalText` rejects. -/
theorem processArguments_ok_iff (argv : List String) (z args : Arguments) :
    processArguments argv z = (0, args) ↔
      ∃ a0 a1 a2 a3 a4 a5 a6, argv = [a0, a1, a2, a3, a4, a5, a6] ∧
        (∀ x ∈ [a1, a2, a3, a4, a5, a6], isDecimalText x = true ∨ x = "") ∧
        args = ⟨toInt32 (strtoul a1.toList).1, toInt32 (strtoul a2.toList).1,
          toInt32 (strtoul a3.toList).1, toInt32 (strtoul a4.toList).1,
          toInt32 (strtoul a5.toList).1, toInt32 (strtoul a6.toList).1⟩ ∧
        Validated args := by
  have txt : ∀ x : String, (isDecimalText x = true ∨ x = "") ↔
      endNonNull (strtoul x.toList).2 = false := by
    intro x
    rw [strtoul_end_null, isDecimalText]
    constructor
    · rintro (h | h)
      · exact Or.inl h
      · subst h; exact Or.inr rfl
    · rintro (h | h)
      · exact Or.inl h
      · exact Or.inr (String.ext h)
  constructor
  · intro h
    unfold processArguments at h
    split at h
    · rename_i a0 a1 a2 a3 a4 a5 a6
      simp only [ARG_UNEXPECTED_ERR, ARG_RANGE_ERR] at h
      obtain ⟨e1, h⟩ := ite_err (by decide) h
      obtain ⟨c1, h⟩ := ite_err (by decide) h
      obtain ⟨e2, h⟩ := ite_err (by decide) h
      obtain ⟨c2, h⟩ := ite_err (by decide) h
      obtain ⟨e3, h⟩ := ite_err (by decide) h
      obtain ⟨c3, h⟩ := ite_err (by decide) h
      obtain ⟨e4, h⟩ := ite_err (by decide) h
      obtain ⟨c4, h⟩ := ite_err (by decide) h
      obtain ⟨e5, h⟩ := ite_err (by decide) h
      obtain ⟨c5, h⟩ := ite_err (by decide) h
      obtain ⟨e6, h⟩ := ite_err (by decide) h
      obtain ⟨c6, h⟩ := ite_err (by decide) h
      simp only [Prod.mk.injEq, true_and] at h
      subst h
      refine ⟨a0, a1, a2, a3, a4, a5, a6, rfl, ?_, rfl, ?_⟩
      · simp only [Bool.not_eq_true] at e1 e2 e3 e4 e5 e6
        simp only [List.mem_cons, List.mem_singleton, List.not_mem_nil, or_false, forall_eq_or_imp,
          forall_eq, txt]
        exact ⟨e1, e2, e3, e4, e5, e6⟩
      · simp only [Validated]
        omega
    · simp [ARG_COUNT_ERR] at h
  · rintro ⟨a0, a1, a2, a3, a4, a5, a6, rfl, ht, rfl, hv⟩
    simp only [List.mem_cons, List.mem_singleton, List.not_mem_nil, or_false, forall_eq_or_imp,
      forall_eq, txt] at ht
    obtain ⟨e1, e2, e3, e4, e5, e6⟩ := ht
    simp only [Validated] at hv
    unfold processArguments
    simp only [e1, e2, e3, e4, e5, e6, Bool.false_eq_true, ↓reduceIte]
    rw [if_neg (by omega), if_neg (by omega), if_neg (by omega), if_neg (by omega),
      if_neg (by omega), if_neg (by omega)]

/-! ## Accounting of the posted permits -/

theorem retryActs_append (out : List Record) (r : Record) (k : PersonClass) (c : Int) :
    retryActs (out ++ [r]) k c
      = retryActs out k c ++ (if isRetryRecord k c r = true then [r.action] else []) := by
  unfold retryActs
  by_cases h : isRetryRecord k c r = true <;> simp [List.filter_append, List.filter_cons, h]

theorem pairs_succ (n : Nat) : pairs n ++ [.leavesQueue, .isBack] = pairs (n + 1) := rfl

set_option maxHeartbeats 4000000 in
theorem shape_step {a : Arguments} {sh sh' : Shared} {p p' : Proc}
    (hs : procStep a sh p = some (sh', p')) (h : Shape sh.out p) : Shape sh'.out p' := by
  revert h
  obtain ⟨name, counter, loc, cap, grp⟩ := p
  cases loc <;>
    simp only [procStep, joinPear, Proc.goto, loopNext] at hs <;>
    (try split at hs) <;> (try split at hs) <;>
    simp only [Option.some.injEq, Prod.mk.injEq, reduceCtorEq] at hs <;>
    (try obtain ⟨rfl, rfl⟩ := hs) <;>
    intro h <;>
    obtain ⟨n, hn⟩ := h <;>
    simp only [phaseTail, setQueue_out, notePost_out, setPierCounter_out, List.append_nil] at hn <;>
    simp only [Shape, phaseTail, setQueue_out, notePost_out, setPierCounter_out, printAction_out,
      retryActs_append, isRetryRecord, decide_True, decide_False, reduceCtorEq, Bool.and_self,
      Bool.or_false, Bool.false_or, Bool.or_true, Bool.true_or, Bool.and_true, Bool.and_false,
      Bool.false_eq_true, ↓reduceIte, List.append_nil] <;>
    first
    | exact ⟨n, hn⟩
    | (refine ⟨n, ?_⟩; rw [hn]; done)
    | (refine ⟨n + 1, ?_⟩; rw [hn, List.append_assoc]; rfl)

set_option maxHeartbeats 4000000 in
theorem procStep_out {a : Arguments} {sh sh' : Shared} {p p' : Proc}
    (hs : procStep a sh p = some (sh', p')) :
    p'.name = p.name ∧ p'.counter = p.counter ∧
      (sh'.out = sh.out ∨ ∃ r, sh'.out = sh.out ++ [r] ∧ r.name = p.name ∧ r.counter = p.counter) := by
  obtain ⟨name, counter, loc, cap, grp⟩ := p
  cases loc <;>
    simp only [procStep, joinPear, Proc.goto, loopNext] at hs <;>
    (try split at hs) <;> (try split at hs) <;>
    simp only [Option.some.injEq, Prod.mk.injEq, reduceCtorEq] at hs <;>
    (try obtain ⟨rfl, rfl⟩ := hs) <;>
    refine ⟨rfl, rfl, ?_⟩ <;>
    first
    | exact Or.inl rfl
    | exact Or.inr ⟨_, rfl, rfl, rfl⟩
    | (refine Or.inl ?_; simp only [setQueue_out, notePost_out, setPierCounter_out]; done)

theorem firstIds_nodup (n : Int) : (firstIds n).Nodup := by
  unfold firstIds
  refine List.Nodup.map ?_ (List.nodup_range _)
  intro x y h
  simpa using h

theorem mem_firstIds {n x : Int} (h : x ∈ firstIds n) : x ≤ n := by
  simp only [firstIds, List.mem_map, List.mem_range] at h
  obtain ⟨j, hj, rfl⟩ := h
  omega

theorem mem_idsOf {k : PersonClass} {l : List Proc} {q : Proc} (hq : q ∈ l) (hk : q.name = k) :
    q.counter ∈ idsOf k l := by
  simp only [idsOf, List.mem_map, List.mem_filter, decide_eq_true_eq]
  exact ⟨q, ⟨hq, hk⟩, rfl⟩

theorem ids_unique {pre post : List Proc} {p : Proc}
    (h : (idsOf p.name (pre ++ p :: post)).Nodup) :
    ∀ q ∈ pre ++ post, ¬(q.name = p.name ∧ q.counter = p.counter) := by
  have e : idsOf p.name (pre ++ p :: post)
      = idsOf p.name pre ++ p.counter :: idsOf p.name post := by
    simp [idsOf, List.filter_append, List.filter_cons]
  rw [e] at h
  have h2 := (List.nodup_middle.1 h)
  rw [List.nodup_cons] at h2
  intro q hq hc
  apply h2.1
  rw [← hc.2]
  rcases List.mem_append.1 hq with hq | hq
  · exact List.mem_append_left _ (mem_idsOf hq hc.1)
  · exact List.mem_append_right _ (mem_idsOf hq hc.1)

theorem retryActs_other {out : List Record} {r : Record} {k : PersonClass} {c : Int}
    (h : ¬(r.name = k ∧ r.counter = c)) : retryActs (out ++ [r]) k c = retryActs out k c := by
  rw [retryActs_append]
  have : isRetryRecord k c r = false := by
    simp only [isRetryRecord, Bool.and_eq_false_imp, Bool.and_eq_true, decide_eq_true_eq]
    intro hh
    exact absurd hh h
  simp [this]

theorem inv7_proc {a : Arguments} {sh sh' : Shared} {p p' : Proc} {rest : List Proc}
    (hu : ∀ q ∈ rest, ¬(q.name = p.name ∧ q.counter = p.counter))
    (h7 : Inv7 sh (p :: rest)) (hs : procStep a sh p = some (sh', p')) :
    Inv7 sh' (p' :: rest) := by
  obtain ⟨hn, hc, ho⟩ := procStep_out hs
  constructor
  · intro q hq
    rcases List.mem_cons.1 hq with rfl | hq
    · exact shape_step hs (h7.shape p (List.mem_cons_self _ _))
    · have hq7 := h7.shape q (List.mem_cons_of_mem _ hq)
      rcases ho with ho | ⟨r, ho, h1, h2⟩
      · rw [ho]; exact hq7
      · obtain ⟨n, hn⟩ := hq7
        refine ⟨n, ?_⟩
        rw [ho, retryActs_other, hn]
        rw [h1, h2]
        intro hh
        exact hu q hq ⟨hh.1.symm, hh.2.symm⟩
  · intro r hr
    have old : r ∈ sh.out → ∃ q ∈ p' :: rest, q.name = r.name ∧ q.counter = r.counter := by
      intro hr
      obtain ⟨q, hq, h1, h2⟩ := h7.owned r hr
      rcases List.mem_cons.1 hq with rfl | hq
      · exact ⟨p', List.mem_cons_self _ _, by rw [hn, h1], by rw [hc, h2]⟩
      · exact ⟨q, List.mem_cons_of_mem _ hq, h1, h2⟩
    rcases ho with ho | ⟨r', ho, h1, h2⟩
    · rw [ho] at hr; exact old hr
    · rw [ho] at hr
      rcases List.mem_append.1 hr with hr | hr
      · exact old hr
      · rw [List.mem_singleton] at hr
        subst hr
        exact ⟨p', List.mem_cons_self _ _, by rw [hn, h1], by rw [hc, h2]⟩

theorem inv7_perm {sh : Shared} {l l' : List Proc} (hp : l.Perm l') (h : Inv7 sh l) :
    Inv7 sh l' :=
  ⟨fun p hm => h.shape p (hp.mem_iff.2 hm),
   fun r hr => by
    obtain ⟨q, hq, h1⟩ := h.owned r hr
    exact ⟨q, hp.mem_iff.1 hq, h1⟩⟩

theorem inv7_new {sh : Shared} {l : List Proc} (c : PersonClass) (k : Int)
    (hf : ∀ q ∈ l, ¬(q.name = c ∧ q.counter = k)) (h : Inv7 sh l) :
    Inv7 sh (⟨c, k, .L328, false, 0⟩ :: l) := by
  constructor
  · intro q hq
    rcases List.mem_cons.1 hq with rfl | hq
    · refine ⟨0, ?_⟩
      simp only [retryActs, pairs, phaseTail, List.append_nil, List.map_eq_nil_iff,
        List.filter_eq_nil_iff]
      intro r hr hh
      obtain ⟨q, hq, h1, h2⟩ := h.owned r hr
      simp only [isRetryRecord, Bool.and_eq_true, decide_eq_true_eq] at hh
      exact hf q hq ⟨by rw [h1, hh.1.1], by rw [h2, hh.1.2]⟩
    · exact h.shape q hq
  · intro r hr
    obtain ⟨q, hq, h1⟩ := h.owned r hr
    exact ⟨q, List.mem_cons_of_mem _ hq, h1⟩

theorem inv7_init : Inv7 initState.sh initState.procs :=
  ⟨by simp [initState], by simp [initState]⟩

theorem reachable_inv7 {a : Arguments} {s : State} (h : Reachable a s) :
    Inv7 s.sh s.procs := by
  induction h with
  | init => exact inv7_init
  | @step s t e hr hs ih =>
    have hi := reachable_inv hr
    cases e with
    | proc i =>
      simp only [step] at hs
      split at hs
      · exact absurd hs (by simp)
      · rename_i p hp
        split at hs
        · exact absurd hs (by simp)
        · rename_i sh q hq
          simp only [Option.some.injEq] at hs
          subst hs
          obtain ⟨pre, post, e1, e2⟩ := get_split hp
          have hnd : (idsOf p.name s.procs).Nodup := by
            cases hpn : p.name
            · rw [hi.five.hack.ids]; exact firstIds_nodup _
            · rw [hi.five.serf.ids]; exact firstIds_nodup _
          rw [e1] at ih hnd
          have hu := ids_unique hnd
          have k7 := inv7_perm (List.perm_middle) ih
          simpa [e2] using inv7_perm (List.perm_middle).symm (inv7_proc hu k7 hq)
    | fork c =>
      obtain ⟨-, rfl⟩ := step_fork hs
      have hf : ∀ q ∈ s.procs, ¬(q.name = c ∧ q.counter = (s.gen c).counter + 1) := by
        intro q hq hh
        have hm := mem_idsOf hq hh.1
        cases c
        · rw [hi.five.hack.ids] at hm
          have := mem_firstIds hm
          simp only [State.gen] at hh
          omega
        · rw [hi.five.serf.ids] at hm
          have := mem_firstIds hm
          simp only [State.gen] at hh
          omega
      simpa using inv7_perm (List.perm_append_singleton _ _).symm (inv7_new c _ hf ih)
    | forkFails c =>
      obtain ⟨-, rfl⟩ := step_forkFails hs
      simpa using ih

/-! ## The claims -/

theorem reachable_runD (a : Arguments) (es : List Event) {s : State} (h : Reachable a s) :
    Reachable a (runD a es s) := by
  induction es generalizing s with
  | nil => exact h
  | cons e es ih =>
    simp only [runD, List.foldl_cons]
    cases hs : step a s e with
    | none => exact ih h
    | some t => exact ih (Reachable.step e h hs)

/-- C1. In every state reachable under a validated configuration the two pier
counters are non-negative and their sum is at most `pierCapacity`; the states
between an arrival's increment (line 215) and the reset of the quorum test are
reachable states like any other. -/
theorem pier_capacity_invariant (a : Arguments) (s : State) (hv : Validated a)
    (hr : Reachable a s) :
    0 ≤ s.sh.hackerPierCount ∧ 0 ≤ s.sh.serfPierCount ∧
      s.sh.hackerPierCount + s.sh.serfPierCount ≤ a.pierCapacity := by
  have h := inv2_sum_le (reachable_inv hr).two
  have h5 : 5 ≤ a.pierCapacity := hv.2.2.2.2.2.2.2.2.2.2
  omega

/-- Witness for C1: in the transient state of `runRetry` the counters are 3
and 2, so the bound is attained at `pierCapacity = 5`. -/
theorem pier_capacity_invariant_witness :
    Validated (config 4 5) ∧
    (runD (config 4 5) runRetry initState).sh.hackerPierCount = 3 ∧
    (runD (config 4 5) runRetry initState).sh.serfPierCount = 2 ∧
    (0 ≤ (runD (config 4 5) runRetry initState).sh.hackerPierCount ∧
      0 ≤ (runD (config 4 5) runRetry initState).sh.serfPierCount ∧
      (runD (config 4 5) runRetry initState).sh.hackerPierCount +
        (runD (config 4 5) runRetry initState).sh.serfPierCount ≤ (config 4 5).pierCapacity) :=
  ⟨by decide, by decide, by decide,
    pier_capacity_invariant (config 4 5) (runD (config 4 5) runRetry initState) (by decide)
      (reachable_runD _ _ Reachable.init)⟩

/-- C7, amended. In every reachable state, for every arrival `p`: the `leaves
queue`, `is back` and `waits` records that `p` has logged so far are, in
transcript order, complete pairs `leaves queue`, `is back`, followed by a
single `leaves queue` exactly while `p` stands between the two prints (lines
193-200) and by `waits` once `p` is admitted (past line 216): every `leaves
queue` is answered by `is back` before the arrival is admitted. And when `p`
stands at the test of line 189 and finds `hackerPierCount + serfPierCount ==
pierCapacity`, its next six statements, run without interruption, append
exactly `leaves queue` and then `is back` to the transcript, leave the pier
counters alone and put `p` back at the entrance of `joinPear` (line 186), not
admitted. -/
theorem pier_full_retry (a : Arguments) (s : State) (p : Proc) (hr : Reachable a s)
    (hp : p ∈ s.procs) :
    (∃ n, retryActs s.sh.out p.name p.counter = pairs n ++ phaseTail p.loc) ∧
    (p.loc = .L189 → s.sh.hackerPierCount + s.sh.serfPierCount = a.pierCapacity →
      (retryBlock a 6 s.sh p).1.out = s.sh.out ++
        [⟨s.sh.actionCounter, p.name, p.counter, .leavesQueue,
            some (s.sh.hackerPierCount, s.sh.serfPierCount), p.group⟩,
         ⟨s.sh.actionCounter + 1, p.name, p.counter, .isBack, none, p.group⟩] ∧
      (retryBlock a 6 s.sh p).2 = { p with loc := .L186, isCaptain := false } ∧
      (retryBlock a 6 s.sh p).1.hackerPierCount = s.sh.hackerPierCount ∧
      (retryBlock a 6 s.sh p).1.serfPierCount = s.sh.serfPierCount) := by
  refine ⟨(reachable_inv7 hr).shape p hp, ?_⟩
  intro hl hf
  obtain ⟨name, counter, loc, cap, grp⟩ := p
  simp only at hl
  subst hl
  simp [retryBlock, procStep, joinPear, Proc.goto, hf, printAction]

/-- Witness for C7 (amended): in the run `runRetryAtTest` the fourth hacker
stands at line 189 with the counters at 3 and 2 and `pierCapacity = 5`; its
next six statements log `leaves queue` and `is back` as records 12 and 13, and
in the run `runRetryBack`, where it has executed them, its retry records are
one complete pair. -/
theorem pier_full_retry_witness :
    ((runD (config 4 5) runRetryAtTest initState).procs.get? 3
        = some ⟨.HACK, 4, .L189, false, 0⟩ ∧
      (runD (config 4 5) runRetryAtTest initState).sh.actionCounter = 12 ∧
      (runD (config 4 5) runRetryAtTest initState).sh.hackerPierCount = 3 ∧
      (runD (config 4 5) runRetryAtTest initState).sh.serfPierCount = 2 ∧
      retryActs (runD (config 4 5) runRetryBack initState).sh.out .HACK 4
        = [.leavesQueue, .isBack] ∧
      (runD (config 4 5) runRetryBack initState).sh.out
        = (runD (config 4 5) runRetryAtTest initState).sh.out ++
          [⟨12, .HACK, 4, .leavesQueue, some (3, 2), 0⟩, ⟨13, .HACK, 4, .isBack, none, 0⟩]) ∧
    ((retryBlock (config 4 5) 6 (runD (config 4 5) runRetryAtTest initState).sh
          ⟨.HACK, 4, .L189, false, 0⟩).1.out
        = (runD (config 4 5) runRetryAtTest initState).sh.out ++
          [⟨(runD (config 4 5) runRetryAtTest initState).sh.actionCounter, .HACK, 4, .leavesQueue,
              some ((runD (config 4 5) runRetryAtTest initState).sh.hackerPierCount,
                (runD (config 4 5) runRetryAtTest initState).sh.serfPierCount), 0⟩,
           ⟨(runD (config 4 5) runRetryAtTest initState).sh.actionCounter + 1, .HACK, 4, .isBack,
              none, 0⟩] ∧
      (retryBlock (config 4 5) 6 (runD (config 4 5) runRetryAtTest initState).sh
          ⟨.HACK, 4, .L189, false, 0⟩).2 = ⟨.HACK, 4, .L186, false, 0⟩ ∧
      (retryBlock (config 4 5) 6 (runD (config 4 5) runRetryAtTest initState).sh
          ⟨.HACK, 4, .L189, false, 0⟩).1.hackerPierCount
        = (runD (config 4 5) runRetryAtTest initState).sh.hackerPierCount ∧
      (retryBlock (config 4 5) 6 (runD (config 4 5) runRetryAtTest initState).sh
          ⟨.HACK, 4, .L189, false, 0⟩).1.serfPierCount
        = (runD (config 4 5) runRetryAtTest initState).sh.serfPierCount) :=
  ⟨by decide,
   (pier_full_retry (config 4 5) (runD (config 4 5) runRetryAtTest initState)
      ⟨.HACK, 4, .L189, false, 0⟩ (reachable_runD _ _ Reachable.init) (by decide)).2
      (by decide) (by decide)⟩

/-- C7, counterexample. In the run `runFour` (capacity 5) all eight arrivals
have started and stand at the entrance of `joinPear` (line 186) at the same
time, more than `pierCapacity`; all of them are then admitted and leave, and
no `leaves queue` record is ever written. -/
theorem scenarioB_without_retry :
    (config 4 5).pierCapacity = 5 ∧
    (runD (config 4 5) runFourStart initState).procs.length = 8 ∧
    (runD (config 4 5) runFourStart initState).procs.all (fun p => p.loc = .L186) = true ∧
    countAction (runD (config 4 5) runFourStart initState).sh.out .starts = 8 ∧
    (runD (config 4 5) runFour initState).procs.all (fun p => p.loc = .done) = true ∧
    countAction (runD (config 4 5) runFour initState).sh.out .waits = 8 ∧
    countAction (runD (config 4 5) runFour initState).sh.out .leavesQueue = 0 ∧
    countAction (runD (config 4 5) runFour initState).sh.out .isBack = 0 := by
  decide

/-- C2. For a process that has just incremented its counter (it stands at
line 221 with `isCaptain` false), with `c` its own counter and `o` the other
one, running the quorum test to line 246 gives: if `c = 4`, four permits
posted to its own queue, `c` reset to 0, `o` unchanged, caller captain; else
if `c = 2` and `o ≥ 2`, two permits posted to each queue, `c` reset to 0, `o`
decreased by 2, caller captain; otherwise nothing posted, counters unchanged,
caller not captain. A caller that becomes captain has posted exactly four
permits, as 4 + 0 or 2 + 2. -/
theorem quorum_rule (a : Arguments) (sh : Shared) (p : Proc) (hl : p.loc = .L221)
    (hc : p.isCaptain = false) :
    (quorumBlock a 9 sh p).2.loc = .L246 ∧
    (sh.pierCounter p.name = 4 →
      (quorumBlock a 9 sh p).1.queue p.name = sh.queue p.name + 4 ∧
      (quorumBlock a 9 sh p).1.queue p.name.other = sh.queue p.name.other ∧
      (quorumBlock a 9 sh p).1.pierCounter p.name = 0 ∧
      (quorumBlock a 9 sh p).1.pierCounter p.name.other = sh.pierCounter p.name.other ∧
      (quorumBlock a 9 sh p).2.isCaptain = true) ∧
    (sh.pierCounter p.name ≠ 4 → sh.pierCounter p.name = 2 → sh.pierCounter p.name.other ≥ 2 →
      (quorumBlock a 9 sh p).1.queue p.name = sh.queue p.name + 2 ∧
      (quorumBlock a 9 sh p).1.queue p.name.other = sh.queue p.name.other + 2 ∧
      (quorumBlock a 9 sh p).1.pierCounter p.name = 0 ∧
      (quorumBlock a 9 sh p).1.pierCounter p.name.other = sh.pierCounter p.name.other - 2 ∧
      (quorumBlock a 9 sh p).2.isCaptain = true) ∧
    (sh.pierCounter p.name ≠ 4 →
      ¬(sh.pierCounter p.name = 2 ∧ sh.pierCounter p.name.other ≥ 2) →
      (quorumBlock a 9 sh p).1.queue p.name = sh.queue p.name ∧
      (quorumBlock a 9 sh p).1.queue p.name.other = sh.queue p.name.other ∧
      (quorumBlock a 9 sh p).1.pierCounter p.name = sh.pierCounter p.name ∧
      (quorumBlock a 9 sh p).1.pierCounter p.name.other = sh.pierCounter p.name.other ∧
      (quorumBlock a 9 sh p).2.isCaptain = false) ∧
    ((quorumBlock a 9 sh p).2.isCaptain = true →
      ((quorumBlock a 9 sh p).1.queue p.name = sh.queue p.name + 4 ∧
        (quorumBlock a 9 sh p).1.queue p.name.other = sh.queue p.name.other) ∨
      ((quorumBlock a 9 sh p).1.queue p.name = sh.queue p.name + 2 ∧
        (quorumBlock a 9 sh p).1.queue p.name.other = sh.queue p.name.other + 2)) := by
  obtain ⟨name, counter, loc, cap, grp⟩ := p
  simp only at hl hc
  subst hl hc
  generalize hq : quorumBlock a 9 sh ⟨name, counter, .L221, false, grp⟩ = r
  simp only at hq ⊢
  by_cases h4 : sh.pierCounter name = 4
  · simp only [quorumBlock, procStep, joinPear, Proc.goto, loopNext, h4, ↓reduceIte, reduceCtorEq,
      Nat.reduceAdd, Nat.reduceLT, Nat.lt_irrefl] at hq
    subst hq
    cases name <;>
      simp only [Shared.pierCounter, Shared.queue, Shared.setQueue, Shared.notePost, Shared.setPierCounter,
        PersonClass.other] at h4 ⊢ <;>
      simp <;> omega
  · by_cases h2 : sh.pierCounter name = 2 ∧ sh.pierCounter name.other ≥ 2
    · simp only [quorumBlock, procStep, joinPear, Proc.goto, loopNext, h4, h2, ↓reduceIte, reduceCtorEq,
        Nat.reduceAdd, Nat.reduceLT, Nat.lt_irrefl, and_self, Int.reduceEq] at hq
      subst hq
      cases name <;>
        simp only [Shared.pierCounter, Shared.queue, Shared.setQueue, Shared.notePost, Shared.setPierCounter,
          PersonClass.other] at h4 h2 ⊢ <;>
        simp <;> omega
    · simp only [quorumBlock, procStep, joinPear, Proc.goto, loopNext, h4, h2, ↓reduceIte, reduceCtorEq,
        Nat.reduceAdd, Nat.reduceLT, Nat.lt_irrefl] at hq
      subst hq
      cases name <;>
        simp only [Shared.pierCounter, Shared.queue, Shared.setQueue, Shared.notePost, Shared.setPierCounter,
          PersonClass.other] at h4 h2 ⊢ <;>
        simp <;> omega

/-- Witness for C2: a serf arrives when two hackers and one serf wait, which
forms a mixed group. -/
theorem quorum_rule_witness :
    (quorumBlock (config 2 5) 9 (runD (config 2 5) (forks 2 ++ sched [(0, 14), (1, 14), (2, 14), (3, 11)]) initState).sh
      ⟨.SERF, 2, .L221, false, 0⟩).1.hackerQueue = 2 ∧
    (quorumBlock (config 2 5) 9 (runD (config 2 5) (forks 2 ++ sched [(0, 14), (1, 14), (2, 14), (3, 11)]) initState).sh
      ⟨.SERF, 2, .L221, false, 0⟩).1.serfQueue = 2 ∧
    (quorumBlock (config 2 5) 9 (runD (config 2 5) (forks 2 ++ sched [(0, 14), (1, 14), (2, 14), (3, 11)]) initState).sh
      ⟨.SERF, 2, .L221, false, 0⟩).2.isCaptain = true :=
  have h := quorum_rule (config 2 5)
    (runD (config 2 5) (forks 2 ++ sched [(0, 14), (1, 14), (2, 14), (3, 11)]) initState).sh
    ⟨.SERF, 2, .L221, false, 0⟩ rfl rfl
  have h2 := h.2.2.1 (by decide) (by decide) (by decide)
  ⟨h2.2.1, h2.1, h2.2.2.2.2⟩

theorem inFlight_le {q : Proc} (h : inFlight q = true) : holdsMutex q = 1 ∧ tagged q = 1 := by
  obtain ⟨n, c, loc, cap, g⟩ := q
  cases loc <;> simp_all [inFlight, holdsMutex, tagged]

set_option maxHeartbeats 4000000 in
theorem c3_exit {a : Arguments} {sh sh' : Shared} {p p' : Proc} {rest : List Proc} {r : Record}
    (h1 : Inv1 sh (p :: rest)) (h3 : Inv3 sh (p :: rest))
    (hs : procStep a sh p = some (sh', p')) (ho : sh'.out = sh.out ++ [r])
    (hx : r.action = .captainExits) :
    sh.exitCounter = 3 ∧ memberExitsOf sh.out r.group = 3 := by
  have r4 := tot_le_mul 1 wt_le rest
  have r8 := tot_le_mul 1 crewD_le rest
  have r9 := tot_le_mul 1 crewPoster_le rest
  have r10 := tot_le_mul 1 crewLogged_le rest
  have r12 := tot_le_mul 1 capLive_le rest
  revert h1 h3
  obtain ⟨name, counter, loc, cap, grp⟩ := p
  cases loc <;>
    simp only [procStep, joinPear, Proc.goto, loopNext] at hs <;>
    (try split at hs) <;> (try split at hs) <;>
    simp only [Option.some.injEq, Prod.mk.injEq, reduceCtorEq] at hs <;>
    (try obtain ⟨rfl, rfl⟩ := hs) <;>
    (simp only [printAction_out, setQueue_out, notePost_out, setPierCounter_out, List.append_cancel_left_eq,
      List.self_eq_append_right, List.cons.injEq, and_true, reduceCtorEq] at ho) <;>
    (try subst ho) <;>
    (simp only [reduceCtorEq] at hx) <;>
    intro h1 h3 <;>
    (have hf := h1.file) <;>
    (have hT := h3.last) <;>
    (have hX := h3.exits) <;>
    (have hU := h3.single) <;>
    (have hGp := (h3.tags _ (List.mem_cons_self _ _)).2) <;>
    clear h1 h3 <;>
    (simp only [tot_cons, tagged, crewD, crewPoster, crewLogged, wt, capDone, capLive, holdsFile,
      true_implies] at hf hT hX hU hGp ⊢) <;>
    subst hGp <;>
    omega

set_option maxHeartbeats 4000000 in
theorem c3_isolated {a : Arguments} {sh sh' : Shared} {p p' : Proc} {rest : List Proc}
    {r : Record}
    (h1 : Inv1 sh (p :: rest)) (h3 : Inv3 sh (p :: rest))
    (hs : procStep a sh p = some (sh', p')) (ho : sh'.out = sh.out ++ [r])
    (hx : r.action = .waits ∨ r.action = .boards ∨ r.action = .memberExits ∨
      r.action = .captainExits) :
    ∀ q ∈ p :: rest, inFlight q = true → r.action ≠ .waits ∧ r.group = q.group := by
  have hGr : ∀ q ∈ rest, grpOk sh.groups q := fun q hq => h3.tags q (List.mem_cons_of_mem _ hq)
  revert h1 h3
  obtain ⟨name, counter, loc, cap, grp⟩ := p
  cases loc <;>
    simp only [procStep, joinPear, Proc.goto, loopNext] at hs <;>
    (try split at hs) <;> (try split at hs) <;>
    simp only [Option.some.injEq, Prod.mk.injEq, reduceCtorEq] at hs <;>
    (try obtain ⟨rfl, rfl⟩ := hs) <;>
    (simp only [printAction_out, setQueue_out, notePost_out, setPierCounter_out, List.append_cancel_left_eq,
      List.self_eq_append_right, List.cons.injEq, and_true, reduceCtorEq] at ho) <;>
    (try subst ho) <;>
    (simp only [reduceCtorEq, or_self, or_false, false_or] at hx) <;>
    intro h1 h3 <;>
    (have hm := h1.mutex) <;>
    (have hGp := (h3.tags _ (List.mem_cons_self _ _)).2) <;>
    clear h1 h3 <;>
    (simp only [tot_cons, tagged, holdsMutex, true_implies] at hm hGp) <;>
    refine List.forall_mem_cons.2 ⟨?_, ?_⟩ <;>
    first
    | (intro hq; simp only [inFlight, Bool.false_eq_true] at hq; done)
    | (intro _; exact ⟨by simp only [ne_eq, reduceCtorEq, not_false_eq_true], rfl⟩)
    | (intro q hq hfl
       exact absurd (holdsMutex_zero_of_tot rest (by omega) q hq)
         (by rw [(inFlight_le hfl).1]; decide))
    | (intro q hq hfl
       exact ⟨by simp only [ne_eq, reduceCtorEq, not_false_eq_true],
         by rw [(hGr q hq).2 (inFlight_le hfl).2]; exact hGp⟩)

/-- C3. Whenever a process appends a record `r` to the transcript in a
reachable state: if `r` is `captain exits`, then `exitCounter` is 3 and
exactly three `member exits` records of the captain's own group have already
been written; and if `r` is `waits`, `boards`, `member exits` or
`captain exits` while some captain is between its quorum test and its
`captain exits` record, then `r` is not `waits` and belongs to that captain's
group. -/
theorem captain_exits_last (a : Arguments) (s t : State) (i : Nat) (r : Record)
    (hr : Reachable a s) (hs : step a s (.proc i) = some t)
    (ho : t.sh.out = s.sh.out ++ [r]) :
    (r.action = .captainExits →
      s.sh.exitCounter = 3 ∧ memberExitsOf s.sh.out r.group = 3) ∧
    (r.action = .waits ∨ r.action = .boards ∨ r.action = .memberExits ∨
        r.action = .captainExits →
      ∀ q ∈ s.procs, inFlight q = true → r.action ≠ .waits ∧ r.group = q.group) := by
  have hi := reachable_inv hr
  simp only [step] at hs
  split at hs
  · exact absurd hs (by simp)
  · rename_i p hp
    split at hs
    · exact absurd hs (by simp)
    · rename_i sh q hq
      simp only [Option.some.injEq] at hs
      subst hs
      obtain ⟨pre, post, e1, -⟩ := get_split hp
      have h1 := hi.one
      have h3 := hi.three
      rw [e1] at h1 h3
      have k1 := inv1_perm (List.perm_middle) h1
      have k3 := inv3_perm (List.perm_middle) h3
      refine ⟨fun hx => c3_exit k1 k3 hq ho hx, fun hx x hxm => ?_⟩
      rw [e1] at hxm
      exact c3_isolated k1 k3 hq ho hx x ((List.perm_middle).mem_iff.1 hxm)

/-- Witness for C3: the step of `runTwo` in which the captain (the second
serf, index 3) logs `captain exits`. -/
theorem captain_exits_last_witness :
    ((Record.mk 13 .SERF 2 .captainExits (some (0, 0)) 1).action = .captainExits →
      (runD (config 2 5) runTwoAtExit initState).sh.exitCounter = 3 ∧
      memberExitsOf (runD (config 2 5) runTwoAtExit initState).sh.out
        (Record.mk 13 .SERF 2 .captainExits (some (0, 0)) 1).group = 3) ∧
    ((Record.mk 13 .SERF 2 .captainExits (some (0, 0)) 1).action = .waits ∨
      (Record.mk 13 .SERF 2 .captainExits (some (0, 0)) 1).action = .boards ∨
      (Record.mk 13 .SERF 2 .captainExits (some (0, 0)) 1).action = .memberExits ∨
      (Record.mk 13 .SERF 2 .captainExits (some (0, 0)) 1).action = .captainExits →
      ∀ q ∈ (runD (config 2 5) runTwoAtExit initState).procs, inFlight q = true →
        (Record.mk 13 .SERF 2 .captainExits (some (0, 0)) 1).action ≠ .waits ∧
        (Record.mk 13 .SERF 2 .captainExits (some (0, 0)) 1).group = q.group) :=
  captain_exits_last (config 2 5) (runD (config 2 5) runTwoAtExit initState)
    (runD (config 2 5) (runTwoAtExit ++ [Event.proc 3]) initState) 3
    ⟨13, .SERF, 2, .captainExits, some (0, 0), 1⟩
    (reachable_runD _ _ Reachable.init) (by decide) (by decide)

theorem length_firstIds {n : Int} : (firstIds n).length = n.toNat := by
  unfold firstIds
  rw [List.length_map, List.length_range]

theorem length_split (l : List Proc) :
    l.length = (idsOf .HACK l).length + (idsOf .SERF l).length := by
  induction l with
  | nil => rfl
  | cons x xs ih =>
    obtain ⟨n, c, loc, cap, g⟩ := x
    cases n <;> simp [idsOf, List.filter_cons] at ih ⊢ <;> omega

theorem tot_started_all {l : List Proc} (h : l.all (fun p => started p = 1) = true) :
    tot started l = l.length := by
  induction l with
  | nil => rfl
  | cons x xs ih =>
    simp only [List.all_cons, Bool.and_eq_true, decide_eq_true_eq] at h
    simp only [tot_cons, List.length_cons, h.1, ih h.2]
    omega

theorem gen_finished {a : Arguments} {g : Gen} {ids : List Int} (hv : Validated a)
    (h : GenOk a g ids) (hf : g.finished a = true) :
    g.counter = a.numberOfPersons ∧ ids = firstIds a.numberOfPersons := by
  simp only [Gen.finished, Bool.and_eq_true, Bool.not_eq_true', decide_eq_false_iff_not] at hf
  have h1 := h.same
  have h2 := h.bound (by have := hv.1; omega)
  have h3 : g.counter = a.numberOfPersons := by omega
  exact ⟨h3, by rw [← h3]; exact h.ids⟩

/-- C4, amended. Under a validated configuration with `numberOfPersons = N`,
once both generators have left their loop without a failed `fork`, each has
forked exactly `N` arrivals, with the ids `1 .. N` of its class; and once all
of them have logged `starts` the transcript holds exactly `2 N` such
records. -/
theorem generators_fork_all (a : Arguments) (s : State) (hv : Validated a)
    (hr : Reachable a s) (hh : s.hackerGen.finished a = true)
    (hs : s.serfGen.finished a = true)
    (hall : s.procs.all (fun p => started p = 1) = true) :
    idsOf .HACK s.procs = firstIds a.numberOfPersons ∧
    idsOf .SERF s.procs = firstIds a.numberOfPersons ∧
    (countAction s.sh.out .starts : Int) = 2 * a.numberOfPersons := by
  have hi := (reachable_inv hr).five
  have g1 := gen_finished hv hi.hack hh
  have g2 := gen_finished hv hi.serf hs
  refine ⟨g1.2, g2.2, ?_⟩
  rw [hi.starts, tot_started_all hall, length_split, g1.2, g2.2, length_firstIds]
  have := hv.1
  omega

/-- Witness for C4 (amended): the complete run `runTwo` of
`./proj2 2 0 0 0 20 5`. -/
theorem generators_fork_all_witness :
    idsOf .HACK (runD (config 2 5) runTwo initState).procs = firstIds (config 2 5).numberOfPersons ∧
    idsOf .SERF (runD (config 2 5) runTwo initState).procs = firstIds (config 2 5).numberOfPersons ∧
    (countAction (runD (config 2 5) runTwo initState).sh.out .starts : Int)
      = 2 * (config 2 5).numberOfPersons :=
  generators_fork_all (config 2 5) (runD (config 2 5) runTwo initState) (by decide)
    (reachable_runD _ _ Reachable.init) (by decide) (by decide) (by decide)

/-- C4, counterexample. With `numberOfPersons = 2` the complete run `runTwo`
has hackers with the ids 1 and 2, not just `1 .. 2/2`, as many serfs, and
four `starts` records, not two: the loop of `generate` runs `numberOfPersons`
times in each generator. -/
theorem population_is_twice_the_argument :
    Validated (config 2 5) ∧
    (runD (config 2 5) runTwo initState).hackerGen.finished (config 2 5) = true ∧
    (runD (config 2 5) runTwo initState).serfGen.finished (config 2 5) = true ∧
    (runD (config 2 5) runTwo initState).procs.all (fun p => p.loc = .done) = true ∧
    idsOf .HACK (runD (config 2 5) runTwo initState).procs = [1, 2] ∧
    idsOf .SERF (runD (config 2 5) runTwo initState).procs = [1, 2] ∧
    idsOf .HACK (runD (config 2 5) runTwo initState).procs
      ≠ firstIds ((config 2 5).numberOfPersons / 2) ∧
    countAction (runD (config 2 5) runTwo initState).sh.out .starts = 4 ∧
    (countAction (runD (config 2 5) runTwo initState).sh.out .starts : Int)
      ≠ (config 2 5).numberOfPersons := by
  decide

set_option maxHeartbeats 4000000 in
theorem boards_unchanged {a : Arguments} {sh sh' : Shared} {p p' : Proc}
    (hc : capOk p) (hn : p.isCaptain = false)
    (hs : procStep a sh p = some (sh', p')) :
    countAction sh'.out .boards = countAction sh.out .boards := by
  obtain ⟨name, counter, loc, cap, grp⟩ := p
  simp only at hn
  subst hn
  cases loc <;>
    simp only [procStep, joinPear, Proc.goto, loopNext] at hs <;>
    (try split at hs) <;> (try split at hs) <;>
    simp only [Option.some.injEq, Prod.mk.injEq, reduceCtorEq] at hs <;>
    (try obtain ⟨rfl, rfl⟩ := hs) <;>
    (simp only [capOk, Bool.false_eq_true] at hc) <;>
    (try simp only [countAction, setQueue_out, notePost_out, setPierCounter_out, printAction_out,
      List.countP_append, List.countP_cons, List.countP_nil, reduceCtorEq, decide_False,
      Bool.false_eq_true, ↓reduceIte, add_zero])

/-- C9, amended. In every reachable state the number of `boards` records
equals the number of groups formed, minus the group whose captain has not yet
logged; a step of a process that is not a captain never adds a `boards`
record; and the two statements of a crew member between its permit and the
end of `onBoard++` (lines 282-283) leave the transcript as it is. So each
group yields exactly one `boards` record, the captain's. -/
theorem one_boards_record_per_group (a : Arguments) (s : State) (hr : Reachable a s) :
    countAction s.sh.out .boards + tot preBoard s.procs = s.sh.groups ∧
    (∀ (i : Nat) (p : Proc) (t : State), s.procs.get? i = some p → p.isCaptain = false →
      step a s (.proc i) = some t →
      countAction t.sh.out .boards = countAction s.sh.out .boards) ∧
    (∀ (i : Nat) (p : Proc) (t : State), s.procs.get? i = some p →
      p.loc = .L282 ∨ p.loc = .L283 → step a s (.proc i) = some t →
      t.sh.out = s.sh.out ∧ (p.loc = .L283 → t.sh.onBoard = s.sh.onBoard + 1)) := by
  have hi := reachable_inv hr
  refine ⟨hi.three.boards, ?_, ?_⟩
  rotate_left
  · intro i p t hp hl hs
    obtain ⟨name, counter, loc, cap, grp⟩ := p
    simp only at hl
    simp only [step, hp] at hs
    rcases hl with rfl | rfl
    · simp only [procStep, joinPear, Proc.goto] at hs
      by_cases hf : 0 < s.sh.fileSem
      · simp only [hf, ↓reduceIte, Option.some.injEq] at hs
        subst hs
        exact ⟨rfl, fun h => Loc.noConfusion h⟩
      · simp only [hf, ↓reduceIte, reduceCtorEq] at hs
    · simp only [procStep, joinPear, Proc.goto, Option.some.injEq] at hs
      subst hs
      exact ⟨rfl, fun _ => rfl⟩
  intro i p t hp hn hs
  simp only [step, hp] at hs
  split at hs
  · exact absurd hs (by simp)
  · rename_i sh q hq
    simp only [Option.some.injEq] at hs
    subst hs
    exact boards_unchanged (hi.one.cap p (List.get?_mem hp)) hn hq

/-- Witness for C9 (amended): after the complete run `runTwo` one group has
been formed and one `boards` record written. -/
theorem one_boards_record_per_group_witness :
    countAction (runD (config 2 5) runTwo initState).sh.out .boards
      + tot preBoard (runD (config 2 5) runTwo initState).procs
      = (runD (config 2 5) runTwo initState).sh.groups :=
  (one_boards_record_per_group (config 2 5) (runD (config 2 5) runTwo initState)
    (reachable_runD _ _ Reachable.init)).1

/-- C9, counterexample. In the complete run `runTwo` one group of four sails
(three `member exits`, one `captain exits`), yet the transcript holds a single
`boards` record, written by the captain `SERF 2`: the three crew members log
nothing between their permit and `onBoard++`. -/
theorem crew_writes_no_boards_record :
    (runD (config 2 5) runTwo initState).procs.all (fun p => p.loc = .done) = true ∧
    (runD (config 2 5) runTwo initState).sh.groups = 1 ∧
    countAction (runD (config 2 5) runTwo initState).sh.out .memberExits = 3 ∧
    countAction (runD (config 2 5) runTwo initState).sh.out .captainExits = 1 ∧
    (runD (config 2 5) runTwo initState).sh.out.filter (fun r => r.action = .boards)
      = [⟨9, .SERF, 2, .boards, some (0, 0), 1⟩] := by
  decide

/-- C10, the defect evaluated. `main` initialises `boardingDone` to 1, so in
the run `runTwoAtCruise` the captain (index 3) has passed
`sem_wait(boardingDone)` and stands at the first `sem_post(sailingDone)` while
the three crew members still wait for their permits and `onBoard` is 0; one
step later it has posted `sailingDone` with `onBoard` still 0. -/
theorem captain_sails_before_boarding :
    initState.sh.boardingDone = 1 ∧
    (runD (config 2 5) runTwoAtCruise initState).procs.map (fun p => (p.loc, p.isCaptain))
      = [(.L246, false), (.L246, false), (.L246, false), (.L265 0, true)] ∧
    (runD (config 2 5) runTwoAtCruise initState).sh.onBoard = 0 ∧
    (runD (config 2 5) (runTwoAtCruise ++ [Event.proc 3]) initState).sh.sailingDone = 1 ∧
    (runD (config 2 5) (runTwoAtCruise ++ [Event.proc 3]) initState).sh.onBoard = 0 := by
  decide

/-- C8, the defect evaluated. The argument path indexes the table with
`returnCode - 1` and finds the message of each error, but every fork path
indexes it with the code itself: `FORK_ERR` is 4, one past the last element,
so no message (in particular not `Fork error`, which is at `FORK_ERR - 1`) is
selected. -/
theorem fork_error_index_out_of_bounds :
    errorMessages.length = 4 ∧
    messageAt (mainErrorIndex (.argument ARG_COUNT_ERR)) = some "Too many / Not enough arguments" ∧
    messageAt (mainErrorIndex (.argument ARG_UNEXPECTED_ERR)) = some "Unexpected argument" ∧
    messageAt (mainErrorIndex (.argument ARG_RANGE_ERR)) = some "Argument out of allowed range" ∧
    [ErrorSite.hackerGeneratorFork, .hackerGenerate FORK_ERR, .serfGeneratorFork,
      .serfGenerate FORK_ERR].all (fun site =>
        site.code = FORK_ERR && mainErrorIndex site = 4 &&
        messageAt (mainErrorIndex site) = none &&
        messageAt (site.code - 1) = some "Fork error") = true := by
  decide

/-- C5, the defect evaluated. `./proj2 2 "" 0 0 20 5` is accepted: for the
empty string `strtoul` converts nothing, returns 0 and leaves `end` at the
terminating NUL, so the test `if (*end)` does not fire although the argument
is not the decimal text of an integer. -/
theorem empty_argument_accepted :
    processArguments ["proj2", "2", "", "0", "0", "20", "5"] Arguments.zero
      = (0, ⟨2, 0, 0, 0, 20, 5⟩) ∧
    isDecimalText "" = false ∧
    processArguments ["proj2", "2", "x", "0", "0", "20", "5"] Arguments.zero
      = (ARG_UNEXPECTED_ERR, ⟨2, 0, 0, 0, 0, 0⟩) := by
  decide

end Proj2
